import Mathlib

/-!
# A verified model of the reservation-list sorter

This file gives a shallow embedding, in Lean 4, of the core pipeline of
`src/main.ts` from the `res-list-sorter` repository: the report parser,
the audience classifier and multi-key sort engine, and the column/page
pagination engine, together with theorems about the properties the
design documentation states for them.

Modelling conventions:
* JavaScript strings are Lean `String`s (a `String` is a structure over
  `List Char`, so all functions below are executable and kernel-reducible).
* The regular expressions of the source are modelled by executable
  matching functions over `List Char`; each matcher's doc comment records
  the regex it implements and how match-existence/backtracking semantics
  were discharged.
* Fallible code (`throw`) is modelled with `Except String`.
* The external pdf rendering backend (text measurement, `splitTextToSize`)
  is an explicit parameter of the pagination model: a `PdfConfig` carries
  the derived line height, page height and the two wrapping functions the
  backend provides.  All layout arithmetic that the source performs on
  these measurements is reproduced over `Nat` (subtractions that can go
  negative in JS are rearranged into overflow-free comparisons, noted
  where they occur).
-/

/-! ## Character classes of the JavaScript regex dialect -/

/-- The character class `\s` of JavaScript regular expressions
(ECMA-262 WhiteSpace ∪ LineTerminator). -/
def jsWhitespace (c : Char) : Bool :=
  -- code points: TAB LF VT FF CR SPACE NBSP OGHAM, U+2000–U+200A,
  -- LS PS NNBSP MMSP IDEOGRAPHIC BOM
  decide (c.toNat = 0x20 ∨ c.toNat = 0x9 ∨ c.toNat = 0xa ∨ c.toNat = 0xb ∨
    c.toNat = 0xc ∨ c.toNat = 0xd ∨ c.toNat = 0xa0 ∨ c.toNat = 0x1680 ∨
    (0x2000 ≤ c.toNat ∧ c.toNat ≤ 0x200a) ∨
    c.toNat = 0x2028 ∨ c.toNat = 0x2029 ∨ c.toNat = 0x202f ∨
    c.toNat = 0x205f ∨ c.toNat = 0x3000 ∨ c.toNat = 0xfeff)

/-- The character class `\d` of JavaScript regular expressions
(`0x30`–`0x39` are the ASCII digits). -/
def jsDigit (c : Char) : Bool :=
  decide (0x30 ≤ c.toNat ∧ c.toNat ≤ 0x39)

/-- The character class `\w` of JavaScript regular expressions:
`[A-Za-z0-9_]` (`0x5f` is the underscore). -/
def jsWordChar (c : Char) : Bool :=
  decide ((0x61 ≤ c.toNat ∧ c.toNat ≤ 0x7a) ∨ (0x41 ≤ c.toNat ∧ c.toNat ≤ 0x5a) ∨
    (0x30 ≤ c.toNat ∧ c.toNat ≤ 0x39) ∨ c.toNat = 0x5f)

/-- Case-insensitive character comparison, as used by the `i` regex flag
(ASCII case folding via `Char.toLower`). -/
def charCI (a b : Char) : Bool :=
  a.toLower = b.toLower

/-! ## List-of-characters helpers (JS string primitives) -/

/-- Drop the longest whitespace suffix (the `\s*$` part of an anchored
regex, and the tail half of `String.prototype.trim`). -/
def dropTrailingWs (cs : List Char) : List Char :=
  (cs.reverse.dropWhile jsWhitespace).reverse

/-- The longest digit run at the end of a list of characters. -/
def takeTrailingDigits (cs : List Char) : List Char :=
  (cs.reverse.takeWhile jsDigit).reverse

/-- `String.prototype.trim` on a character list: strip JS whitespace from
both ends. -/
def jsTrimList (cs : List Char) : List Char :=
  dropTrailingWs (cs.dropWhile jsWhitespace)

/-- `String.prototype.trim`. -/
def jsTrim (s : String) : String :=
  String.mk (jsTrimList s.data)

/-- `String.prototype.trimEnd`. -/
def jsTrimEnd (s : String) : String :=
  String.mk (dropTrailingWs s.data)

/-- `String.prototype.toLowerCase` (ASCII case folding). -/
def jsLower (s : String) : String :=
  String.mk (s.data.map Char.toLower)

/-- Strip `pat` from the front of `cs`, comparing case-insensitively;
`none` if `pat` is not a (case-insensitive) prefix. -/
def stripCI : List Char → List Char → Option (List Char)
  | [], cs => some cs
  | _ :: _, [] => none
  | p :: ps, c :: cs => if charCI p c then stripCI ps cs else none

/-- Does `pat` occur (case-insensitively) anywhere inside `cs`?  Models a
bare `/pat/i.test(s)` for a literal pattern. -/
def containsCIList (pat : List Char) : List Char → Bool
  | [] => (stripCI pat []).isSome
  | c :: cs => (stripCI pat (c :: cs)).isSome || containsCIList pat cs

/-- `/pat/i.test(s)` for a literal (regex-metacharacter-free) pattern. -/
def containsCI (pat s : String) : Bool :=
  containsCIList pat.data s.data

/-! ## The entry-start regex

The source defines

  `BARCODE_PATTERN = "30120\\d+"` and
  `entryStartRegex = /^\s*(.*?)\s+(30120\d+)\s*$/`.

A line matches this anchored pattern iff it decomposes as
`A ++ W ++ ("30120" ++ D) ++ S` with `W` nonempty whitespace, `D` nonempty
digits and `S` whitespace.  Because the barcode consists of digits, is
preceded by a whitespace character and is followed only by whitespace, the
barcode group is forced to be exactly the maximal digit run at the end of
the whitespace-trimmed line, and that run must start with `30120`, have at
least six characters, and be preceded by at least one character of
whitespace.  Group 1 (`(.*?)`) is the remainder before that run up to
surrounding whitespace; the source only ever uses `match[1].trim()`, which
equals the trim of that whole remainder, so the matcher returns the
untrimmed remainder and callers trim it. -/

/-- Model of `line.match(entryStartRegex)`: `some (pre, barcode)` where
`barcode` is group 2 and `pre` trims to group 1's trim. -/
def entryStartMatch (line : String) : Option (String × String) :=
  let t := dropTrailingWs line.data
  let r := takeTrailingDigits t
  let p := t.take (t.length - r.length)
  if ("30120".data.isPrefixOf r) && decide (6 ≤ r.length) &&
      (match p.getLast? with
       | some c => jsWhitespace c
       | none => false) then
    some (String.mk p, String.mk r)
  else
    none

/-- Model of `entryStartRegex.test(line)`. -/
def isEntryStart (line : String) : Bool :=
  (entryStartMatch line).isSome

/-! ## Data model (`type` declarations of the source) -/

/-- `type Audience = "adult" | "junior"`. -/
inductive Audience where
  | adult
  | junior
deriving DecidableEq, Repr

/-- `type Entry` of the source. -/
structure Entry where
  rawLines : List String
  barcode : String
  shelfmark : String
  author : String
  itemType : String
  sequence : String
  audience : Audience
  originalIndex : Nat
deriving DecidableEq, Repr

/-- `type ParseResult` of the source. -/
structure ParseResult where
  libraryName : String
  reportDate : String
  entries : List Entry
deriving DecidableEq, Repr

/-! ## Field extraction and audience classification -/

/-- One line of `findField`'s scan: the regex
`^\s*<fieldName>\s*:\s*(.*)$` (case-insensitive, `fieldName` escaped).
`match[1]` is everything after the whitespace following the colon, and the
source immediately applies `.trim()`, which coincides with trimming
everything after the colon; the matcher returns that trim directly. -/
def matchFieldLine (fieldName line : String) : Option String :=
  match stripCI fieldName.data (line.data.dropWhile jsWhitespace) with
  | none => none
  | some rest =>
    match rest.dropWhile jsWhitespace with
    | ':' :: value => some (String.mk (jsTrimList value))
    | _ => none

/-- `findField(lines, fieldName)`: first line matching the field regex
wins; no match yields the empty string. -/
def findField (lines : List String) (fieldName : String) : String :=
  match lines with
  | [] => ""
  | l :: ls =>
    match matchFieldLine fieldName l with
    | some v => v
    | none => findField ls fieldName

/-- `/^<word>\b/i.test(s)` for a literal pattern ending in a word
character: `s` starts (case-insensitively) with `word`, and the next
character, if any, is not a word character. -/
def startsWordCI (word s : String) : Bool :=
  match stripCI word.data s.data with
  | none => false
  | some [] => true
  | some (c :: _) => !jsWordChar c

/-- `classifyAudience(itemType, sequence)` of the source. -/
def classifyAudience (itemType sequence : String) : Audience :=
  let type := jsTrim itemType
  if startsWordCI "adult" type then .adult
  else if startsWordCI "junior" type then .junior
  else if containsCI "children" type || containsCI "children" sequence then .junior
  -- Fallback: treat as adult unless junior markers are present.
  else .adult

/-! ## Header metadata -/

/-- The library-name regex `/^\s*Items at\s+(.+?)\s*$/i`.  A match exists
iff, after `Items at`, at least one whitespace character and then at least
one further character follow; `match[1].trim()` then equals the trim of
the whole remainder (see the analysis for `entryStartMatch`; when the
remainder is all whitespace the group still trims to `""`). -/
def matchLibraryLine (line : String) : Option String :=
  match stripCI "items at".data (line.data.dropWhile jsWhitespace) with
  | none => none
  | some rest =>
    match rest with
    | c :: _ :: _ => if jsWhitespace c then some (String.mk (jsTrimList rest)) else none
    | _ => none

/-- The date regex `/^\s*res_itm_noloan\s+(\d{2}\/\d{2}\/\d{2})\s*$/i`;
returns group 1 (used untrimmed by the source). -/
def matchDateLine (line : String) : Option String :=
  match stripCI "res_itm_noloan".data (line.data.dropWhile jsWhitespace) with
  | none => none
  | some rest =>
    let ws := rest.takeWhile jsWhitespace
    let body := rest.dropWhile jsWhitespace
    if ws.isEmpty then none
    else
      match body with
      | d1 :: d2 :: '/' :: d3 :: d4 :: '/' :: d5 :: d6 :: tail =>
        if jsDigit d1 && jsDigit d2 && jsDigit d3 && jsDigit d4 &&
            jsDigit d5 && jsDigit d6 && (tail.dropWhile jsWhitespace).isEmpty then
          some (String.mk [d1, d2, '/', d3, d4, '/', d5, d6])
        else none
      | _ => none

/-- `extractHeaderMetadata(headerLines)`: scans every header line, the
last matching line winning for each field; placeholders if none match. -/
def extractHeaderMetadata (headerLines : List String) : String × String :=
  headerLines.foldl
    (fun (acc : String × String) line =>
      let acc1 := match matchLibraryLine line with
        | some name => (name, acc.2)
        | none => acc
      match matchDateLine line with
      | some date => (acc1.1, date)
      | none => acc1)
    ("Unknown Library", "Unknown date")

/-! ## Record assembly and `parseEntry` -/

/-- `parseEntry(rawLines, originalIndex)` of the source. -/
def parseEntry (rawLines : List String) (originalIndex : Nat) : Except String Entry :=
  let firstLine := rawLines.headD ""
  match entryStartMatch firstLine with
  | none => .error ("Invalid entry start at item " ++ toString (originalIndex + 1) ++ ".")
  | some (pre, barcode) =>
    let preBarcode := jsTrim pre
    -- `preBarcode.split(/\s+/)[0] ?? ""`: the first whitespace-delimited
    -- token of the trimmed string (its leading run of non-whitespace).
    let shelfmark := String.mk (preBarcode.data.takeWhile (fun c => !jsWhitespace c))
    let author := jsTrim (rawLines.getD 1 "")
    let itemType := findField rawLines "Item Type"
    let sequence := findField rawLines "Sequence"
    let audience := classifyAudience itemType sequence
    .ok { rawLines, barcode, shelfmark, author, itemType, sequence, audience, originalIndex }

/-- The record-accumulation loop of `parseList`: an entry-start line
closes the current record (if any) and opens a new one; other lines are
appended to the current record, or skipped if no record is open. -/
def gatherRecords : List String → List String → List (List String)
  | [], current => if current.isEmpty then [] else [current]
  | line :: rest, current =>
    if isEntryStart line then
      if current.isEmpty then gatherRecords rest [line]
      else current :: gatherRecords rest [line]
    else
      if current.isEmpty then gatherRecords rest []
      else gatherRecords rest (current ++ [line])

/-- Parse each accumulated record in order; the running index mirrors
`entries.length` at the moment `parseEntry` is called. -/
def parseAllRecords : List (List String) → Nat → Except String (List Entry)
  | [], _ => .ok []
  | r :: rs, i =>
    match parseEntry r i with
    | .error e => .error e
    | .ok entry =>
      match parseAllRecords rs (i + 1) with
      | .error e => .error e
      | .ok entries => .ok (entry :: entries)

/-- `parseList` on an already-split list of lines (the body of the source
function after `input.replace(/\r/g, "").split("\n")`). -/
def parseLines (lines : List String) : Except String ParseResult :=
  match lines.findIdx? isEntryStart with
  | none =>
    .error "No item entries found. Check that the pasted text includes full reservation entries."
  | some firstEntryIndex =>
    let headerLines := lines.take firstEntryIndex
    let meta := extractHeaderMetadata headerLines
    match parseAllRecords (gatherRecords (lines.drop firstEntryIndex) []) 0 with
    | .error e => .error e
    | .ok entries =>
      let rawEntryCount := (lines.filter isEntryStart).length
      if entries.length ≠ rawEntryCount then
        .error ("Parsing integrity check failed: " ++ toString rawEntryCount ++
          " entries detected in source but only " ++ toString entries.length ++
          " were successfully parsed. Do not use the output.")
      else if entries.length = 0 then
        .error "Entries could not be parsed."
      else
        .ok { libraryName := meta.1, reportDate := meta.2, entries }

/-- The characters-to-lines step `input.replace(/\r/g, "").split("\n")`:
every piece of the split, in order, empty pieces included. -/
def splitOnNewline : List Char → List (List Char)
  | [] => [[]]
  | c :: cs =>
    let rest := splitOnNewline cs
    if c = '\n' then [] :: rest
    else (c :: rest.headD []) :: rest.tail

/-- `input.replace(/\r/g, "").split("\n")`: remove every carriage
return, then split at newlines. -/
def splitLines (input : String) : List String :=
  (splitOnNewline (input.data.filter (fun c => decide (c ≠ '\r')))).map String.mk

/-- `parseList(input)` of the source. -/
def parseList (input : String) : Except String ParseResult :=
  parseLines (splitLines input)

/-! ## The locale-aware text comparison

`compareText` in the source is
`a.localeCompare(b, undefined, { sensitivity: "base", numeric: true })`:
a case-insensitive comparison in which runs of digits compare by their
numeric value (and numbers order before other characters).  The locale
machinery itself is external; it is modelled here by mapping each string
to a key — lower-cased, with each maximal digit run collapsed to its
numeric value, digit runs tagged to order before other characters — and
comparing keys lexicographically.  Only the comparison's order-theoretic
behaviour (it is a total preorder with swap-symmetry) is relied on by the
theorems below. -/

/-- Encode a (lower-cased) character list into a comparison key,
scanning left to right with the value of the digit run in progress as
state: a maximal digit run becomes `0 :: value :: _` (the tag `0` orders
numbers first), any other character `c` becomes `c.toNat + 2`. -/
def encodeKeyGo : Option Nat → List Char → List Nat
  | none, [] => []
  | some n, [] => [0, n]
  | none, c :: cs =>
    if jsDigit c then encodeKeyGo (some (c.toNat - '0'.toNat)) cs
    else (c.toNat + 2) :: encodeKeyGo none cs
  | some n, c :: cs =>
    if jsDigit c then encodeKeyGo (some (10 * n + (c.toNat - '0'.toNat))) cs
    else 0 :: n :: (c.toNat + 2) :: encodeKeyGo none cs

/-- The comparison-key encoding of a character list. -/
def encodeKey (cs : List Char) : List Nat :=
  encodeKeyGo none cs

/-- The collation key of a string. -/
def localeKey (s : String) : List Nat :=
  encodeKey (s.data.map Char.toLower)

/-- Lexicographic three-way comparison of keys. -/
def cmpNatList : List Nat → List Nat → Ordering
  | [], [] => .eq
  | [], _ :: _ => .lt
  | _ :: _, [] => .gt
  | a :: as, b :: bs => (compare a b).then (cmpNatList as bs)

/-- An `Ordering` as the sign of the number `localeCompare` returns. -/
def ordToInt : Ordering → Int
  | .lt => -1
  | .eq => 0
  | .gt => 1

/-- `compareText(a, b)` of the source (see the module comment above on
the collation model). -/
def compareText (a b : String) : Int :=
  ordToInt (cmpNatList (localeKey a) (localeKey b))

/-! ## The type-bucket regexes -/

/-- Is there no word character at this boundary (the closing `\b` after a
pattern ending in a word character)? -/
def noWordCharAhead : List Char → Bool
  | [] => true
  | c :: _ => !jsWordChar c

/-- `/\bdvd\b/i.test(s)`: an occurrence of `dvd` (case-insensitive) with
no word character immediately before or after.  `prev` is the character
preceding the current position. -/
def containsWordDvdAux : Option Char → List Char → Bool
  | _, [] => false
  | prev, c :: cs =>
    ((match prev with
      | none => true
      | some p => !jsWordChar p) &&
     (match stripCI "dvd".data (c :: cs) with
      | some rest => noWordCharAhead rest
      | none => false)) || containsWordDvdAux (some c) cs

/-- `/\bdvd\b/i.test(s)`. -/
def containsWordDvd (s : String) : Bool :=
  containsWordDvdAux none s.data

/-- The `^\s*(adult|junior)\s+` prelude of the bucket regexes: skip
leading whitespace, one of the two audience words (their first letters
differ, so regex alternation equals plain disjunction), then at least one
whitespace character; returns what follows. -/
def afterAudienceGap (cs : List Char) : Option (List Char) :=
  let s := cs.dropWhile jsWhitespace
  let restOpt := match stripCI "adult".data s with
    | some rest => some rest
    | none => stripCI "junior".data s
  match restOpt with
  | none => none
  | some rest =>
    let body := rest.dropWhile jsWhitespace
    if body.length < rest.length then some body else none

/-- `/^\s*(adult|junior)\s+non[- ]fiction\b/i.test(s)`. -/
def startsAudienceNonFiction (s : String) : Bool :=
  match afterAudienceGap s.data with
  | none => false
  | some rest =>
    match stripCI "non".data rest with
    | some ('-' :: r2) =>
      (match stripCI "fiction".data r2 with
       | some r3 => noWordCharAhead r3
       | none => false)
    | some (' ' :: r2) =>
      (match stripCI "fiction".data r2 with
       | some r3 => noWordCharAhead r3
       | none => false)
    | _ => false

/-- `/^\s*(adult|junior)\s+fiction\b/i.test(s)`. -/
def startsAudienceFiction (s : String) : Bool :=
  match afterAudienceGap s.data with
  | none => false
  | some rest =>
    match stripCI "fiction".data rest with
    | some r2 => noWordCharAhead r2
    | none => false

/-- `/graphic\s+fiction/i.test(s)` (an unanchored search). -/
def containsGraphicFictionAux : List Char → Bool
  | [] => false
  | c :: cs =>
    (match stripCI "graphic".data (c :: cs) with
     | some rest =>
       let body := rest.dropWhile jsWhitespace
       decide (body.length < rest.length) && (stripCI "fiction".data body).isSome
     | none => false) || containsGraphicFictionAux cs

/-- `/graphic\s+fiction/i.test(s)`. -/
def containsGraphicFiction (s : String) : Bool :=
  containsGraphicFictionAux s.data

/-- `itemTypeBucket(itemType)` of the source. -/
def itemTypeBucket (itemType : String) : Nat :=
  -- Explicit rule: any DVD item type is treated as media/other.
  if containsWordDvd itemType then 3
  else if startsAudienceNonFiction itemType then 0
  else if startsAudienceFiction itemType then 1
  else if containsGraphicFiction itemType then 2
  else 3

/-- `compareTypeBucket(aType, bType)` of the source. -/
def compareTypeBucket (aType bType : String) : Int :=
  (itemTypeBucket aType : Int) - (itemTypeBucket bType : Int)

/-! ## Sequence normalization and the entry comparator -/

/-- `compareSequence(a, b)` of the source: blank sequences order before
any non-blank sequence. -/
def compareSequence (a b : String) : Int :=
  let aBlank := jsTrim a = ""
  let bBlank := jsTrim b = ""
  if aBlank ∧ bBlank then 0
  else if aBlank then -1
  else if bBlank then 1
  else compareText a b

/-- `normalizeSequenceForSorting(itemType, sequence)` of the source.
`/^adult fiction$/i.test(itemType.trim())` is equivalent to the
lower-cased trim being exactly `"adult fiction"`. -/
def normalizeSequenceForSorting (itemType sequence : String) : String :=
  if jsLower (jsTrim itemType) ≠ "adult fiction" then sequence
  else
    let normalized := jsLower (jsTrim sequence)
    -- Local shelf policy: Thriller is filed with Crime.
    if normalized = "thriller" then "Crime"
    -- Local shelf policy: these are filed with general fiction.
    else if normalized = "historical" ∨ normalized = "romance" ∨ normalized = "saga" ∨
        normalized = "horror" ∨ normalized = "western" then ""
    else sequence

/-- `compareEntries(a, b)` of the source. -/
def compareEntries (a b : Entry) : Int :=
  let typeBucketCompare := compareTypeBucket a.itemType b.itemType
  if typeBucketCompare ≠ 0 then typeBucketCompare
  else
    let itemTypeCompare := compareText a.itemType b.itemType
    if itemTypeCompare ≠ 0 then itemTypeCompare
    else
      let sequenceCompare := compareSequence
        (normalizeSequenceForSorting a.itemType a.sequence)
        (normalizeSequenceForSorting b.itemType b.sequence)
      if sequenceCompare ≠ 0 then sequenceCompare
      else
        let shelfmarkCompare := compareText a.shelfmark b.shelfmark
        if shelfmarkCompare ≠ 0 then shelfmarkCompare
        else
          let authorCompare := compareText a.author b.author
          if authorCompare ≠ 0 then authorCompare
          else
            let barcodeCompare := compareText a.barcode b.barcode
            if barcodeCompare ≠ 0 then barcodeCompare
            else (a.originalIndex : Int) - (b.originalIndex : Int)

/-- `array.sort(compareEntries)`: JavaScript `Array.prototype.sort` is a
stable comparator sort, modelled by the stable `List.mergeSort` on the
non-strict relation `compareEntries a b ≤ 0`. -/
def sortEntries (l : List Entry) : List Entry :=
  l.mergeSort (fun a b => decide (compareEntries a b ≤ 0))

/-! ## Render data model -/

/-- `type FontStyle`. -/
inductive FontStyle where
  | normal
  | bold
  | italic
deriving DecidableEq, Repr

/-- `type RenderSegment`. -/
structure RenderSegment where
  text : String
  style : FontStyle
deriving DecidableEq, Repr

/-- `type RenderLine` (the optional fields become `Option`s, the optional
boolean flag a `Bool` defaulting to `false`). -/
structure RenderLine where
  segments : List RenderSegment
  rightText : Option String := none
  rightStyle : Option FontStyle := none
  continuation : Bool := false
deriving DecidableEq, Repr

/-- `type RenderBlock`. -/
structure RenderBlock where
  lines : List RenderLine
  sectionHeading : RenderLine
  hasHeading : Bool
deriving DecidableEq, Repr

/-- `type RenderDocument`. -/
structure RenderDocument where
  title : String
  blocks : List RenderBlock
deriving DecidableEq, Repr

/-- `type SortResult`. -/
structure SortResult where
  originalCount : Nat
  adultCount : Nat
  juniorCount : Nat
  isValid : Bool
  adultDoc : RenderDocument
  juniorDoc : RenderDocument
deriving DecidableEq, Repr

/-- `makePlainLine(text)`. -/
def makePlainLine (text : String) : RenderLine :=
  { segments := [{ text, style := .normal }] }

/-- `makeStyledLine(text, style)`. -/
def makeStyledLine (text : String) (style : FontStyle) : RenderLine :=
  { segments := [{ text, style }] }

/-- `lineText(line)`. -/
def lineText (line : RenderLine) : String :=
  String.join (line.segments.map (·.text))

/-- `isBlankLine(line)`. -/
def isBlankLine (line : RenderLine) : Bool :=
  lineText line = "" && line.rightText = none

/-- `countTrailingBlankLines(lines)`. -/
def countTrailingBlankLines (lines : List RenderLine) : Nat :=
  (lines.reverse.takeWhile isBlankLine).length

/-- `isMetadataLine(line)`: `/^(Item Type|Sequence|Reserved at)\s*:/i`.
The alternatives begin with distinct letters, so regex alternation equals
plain disjunction. -/
def isMetadataLine (line : String) : Bool :=
  let check := fun (w : String) =>
    match stripCI w.data line.data with
    | some rest =>
      match rest.dropWhile jsWhitespace with
      | ':' :: _ => true
      | _ => false
    | none => false
  check "Item Type" || check "Sequence" || check "Reserved at"

/-- `shouldOmitEntryLine(line)`: `/^Sequence\s*:\s*$/i`. -/
def shouldOmitEntryLine (line : String) : Bool :=
  match stripCI "Sequence".data line.data with
  | some rest =>
    match rest.dropWhile jsWhitespace with
    | ':' :: tail => (tail.dropWhile jsWhitespace).isEmpty
    | _ => false
  | none => false

/-- `line.replace(/^\s+/, "")`. -/
def stripLeadingWs (line : String) : String :=
  String.mk (line.data.dropWhile jsWhitespace)

/-- `buildEntryRenderLines(rawLines)` of the source.  The first-line
regex `^(.*?)\s+(30120\d+)\s*$` has the same match condition as
`entryStartRegex` (the dropped `\s*` prelude is absorbed by `(.*?)`), and
here `match[1]` equals the pre-barcode text up to its trailing
whitespace, to which the source applies `.trimEnd()`. -/
def buildEntryRenderLines (rawLines : List String) : List RenderLine :=
  let nonBlank := rawLines.filter (fun line => decide (jsTrim line ≠ ""))
  match nonBlank with
  | [] => []
  | first0 :: restRaw =>
    let first := stripLeadingWs first0
    let firstLine :=
      match entryStartMatch first with
      | some (pre, barcode) =>
        { segments := [{ text := jsTrimEnd pre, style := .normal }],
          rightText := some barcode, rightStyle := some FontStyle.normal : RenderLine }
      | none => makePlainLine first
    let remaining := restRaw.map stripLeadingWs
    let titleIdx : Option Nat :=
      match remaining.findIdx? isMetadataLine with
      | some k => if 0 < k then some (k - 1) else none
      | none => none
    let rendered := (remaining.mapIdx fun i line =>
      if shouldOmitEntryLine line then none
      else if titleIdx = some i then some (makeStyledLine line .italic)
      else some (makePlainLine line)).reduceOption
    firstLine :: rendered

/-- `formatGroupHeading(itemType, effectiveSequence)`. -/
def formatGroupHeading (itemType effectiveSequence : String) : String :=
  if jsTrim effectiveSequence = "" then itemType ++ " —"
  else itemType ++ " — " ++ effectiveSequence

/-- The section group key `` `${entry.itemType}\u0000${effectiveSequence}` ``
of `buildRenderBlocks`. -/
def groupKey (e : Entry) : String :=
  e.itemType ++ String.mk ['\x00'] ++ normalizeSequenceForSorting e.itemType e.sequence

/-- The entry loop of `buildRenderBlocks`, carrying `lastGroupKey` and
`currentSectionHeading`. -/
def buildRenderBlocksAux :
    List Entry → Option String → Option RenderLine → List RenderBlock
  | [], _, _ => []
  | e :: rest, lastGroupKey, currentHeading =>
    let key := groupKey e
    let effectiveSequence := normalizeSequenceForSorting e.itemType e.sequence
    let cleaned := buildEntryRenderLines e.rawLines
    if some key ≠ lastGroupKey then
      let sectionHeading := makeStyledLine (formatGroupHeading e.itemType effectiveSequence) .bold
      { lines := [sectionHeading, makePlainLine ""] ++ cleaned ++ [makePlainLine ""],
        sectionHeading, hasHeading := true } ::
        buildRenderBlocksAux rest (some key) (some sectionHeading)
    else
      let heading := currentHeading.getD
        (makeStyledLine (formatGroupHeading e.itemType effectiveSequence) .bold)
      { lines := cleaned ++ [makePlainLine ""], sectionHeading := heading, hasHeading := false } ::
        buildRenderBlocksAux rest lastGroupKey (some heading)

/-- Pop trailing blank lines (the while-loop over the last block). -/
def dropTrailingBlankLines (ls : List RenderLine) : List RenderLine :=
  (ls.reverse.dropWhile isBlankLine).reverse

/-- `buildRenderBlocks(entries)` of the source. -/
def buildRenderBlocks (entries : List Entry) : List RenderBlock :=
  let blocks := buildRenderBlocksAux entries none none
  match blocks.getLast? with
  | none => blocks
  | some last => blocks.dropLast ++ [{ last with lines := dropTrailingBlankLines last.lines }]

/-- `buildDocument(audienceLabel, libraryName, reportDate, entries)`. -/
def buildDocument (audienceLabel libraryName reportDate : String)
    (entries : List Entry) : RenderDocument :=
  { title := audienceLabel ++ " reservation list — " ++ libraryName ++ " — " ++ reportDate,
    blocks := buildRenderBlocks entries }

/-- `buildSortedLists(parsed)` of the source; the JS `Set`s of
`originalIndex` values become `Finset ℕ`. -/
def buildSortedLists (parsed : ParseResult) : SortResult :=
  let allEntries := parsed.entries
  let adultEntries := sortEntries (allEntries.filter (fun e => decide (e.audience = .adult)))
  let juniorEntries := sortEntries (allEntries.filter (fun e => decide (e.audience = .junior)))
  let allIndices := (allEntries.map (·.originalIndex)).toFinset
  let splitIndices := ((adultEntries ++ juniorEntries).map (·.originalIndex)).toFinset
  let isValid := decide (splitIndices.card = allIndices.card) && decide (allIndices ⊆ splitIndices)
  { originalCount := allEntries.length,
    adultCount := adultEntries.length,
    juniorCount := juniorEntries.length,
    isValid,
    adultDoc := buildDocument "Adult" parsed.libraryName parsed.reportDate adultEntries,
    juniorDoc := buildDocument "Junior" parsed.libraryName parsed.reportDate juniorEntries }

/-! ## Pagination model

`downloadPdf` drives the external `jsPDF` backend.  Everything the layout
algorithm reads from that backend is packaged into a `PdfConfig`:

* `lineHeight` stands for `Math.ceil(doc.getTextDimensions("Mg").h * 1.25)`;
* `pageHeight` stands for `doc.internal.pageSize.getHeight()`;
* `wrapContent line` stands for
  `wrapRenderLine(doc, line, columnWidth, rightAlignedWidth, fontFamily)`
  (also used for the continued section heading, which the source wraps at
  the same column width);
* `wrapTitle line` stands for
  `wrapRenderLine(doc, line, maxTextWidth, maxTextWidth, fontFamily)`.

The run of the algorithm is recorded as a trace of `PdfEvent`s: one event
per laid-out line (title lines, content lines, footer lines) and one per
column/page advance, the latter carrying the `hasHeading` flag and the
section-heading text of the block being placed when the advance happened.
A successful run returns the trace (`Except.ok` corresponds to reaching
`doc.save(fileName)`); an abort returns `Except.error` with the reported
message and saves nothing. -/

/-- `MAX_INPUT_BYTES` of the source. -/
def MAX_INPUT_BYTES : Nat := 1048576

/-- `MAX_RENDER_LINES` of the source. -/
def MAX_RENDER_LINES : Nat := 12000

/-- `MAX_PDF_PAGES` of the source. -/
def MAX_PDF_PAGES : Nat := 500

/-- `Number.prototype.toLocaleString()` for a natural number under the
default `en-US`-style grouping: decimal digits with `,` every three. -/
def groupDigits (n : Nat) : String :=
  let ds := (toString n).data
  let rec grouped : List Char → List Char
    | [] => []
    | c :: cs => if cs.length % 3 = 0 ∧ cs.length ≠ 0 then c :: ',' :: grouped cs else c :: grouped cs
  String.mk (grouped ds)

/-- The abort message for the wrapped-line cap (`totalWrappedLines >
MAX_RENDER_LINES` branch of `downloadPdf`). -/
def lineCapMessage (totalWrappedLines : Nat) : String :=
  "Output is too large to render safely (" ++ groupDigits totalWrappedLines ++
  " lines). Maximum allowed is " ++ groupDigits MAX_RENDER_LINES ++
  " lines. Please split the list into smaller batches."

/-- The abort message for the page cap (`abortRender` call in
`advanceColumnOrPage`). -/
def pageCapMessage : String :=
  "Output is too large to render safely (" ++ groupDigits MAX_PDF_PAGES ++
  " pages limit). Please split the list into smaller batches."

/-- The measurements and wrapping services obtained from the rendering
backend, plus the column-count setting. -/
structure PdfConfig where
  columnCount : Nat
  lineHeight : Nat
  pageHeight : Nat
  wrapContent : RenderLine → List RenderLine
  wrapTitle : RenderLine → List RenderLine

/-- `columnStartXs.length`: two columns when the setting is `2`,
otherwise one. -/
def effectiveColumns (cfg : PdfConfig) : Nat :=
  if cfg.columnCount = 2 then 2 else 1

/-- `margin` of `downloadPdf`. -/
def pdfMargin : Nat := 36

/-- `usableHeight = footerY - margin` with `footerY = pageHeight - 16`. -/
def usableHeightOf (cfg : PdfConfig) : Nat :=
  cfg.pageHeight - 16 - pdfMargin

/-- `fitSlack = Math.floor(lineHeight * 0.6)`. -/
def fitSlackOf (cfg : PdfConfig) : Nat :=
  6 * cfg.lineHeight / 10

/-- `wrappedTitle` of `downloadPdf`. -/
def wrappedTitleOf (cfg : PdfConfig) (title : String) : List RenderLine :=
  cfg.wrapTitle (makeStyledLine title .bold)

/-- The `y` value `startNewPage` returns: `drawPageTitle` advances from
`margin` by one line height per wrapped title line, and `startNewPage`
adds one further line height. -/
def contentStartYOf (cfg : PdfConfig) (title : String) : Nat :=
  pdfMargin + (wrappedTitleOf cfg title).length * cfg.lineHeight + cfg.lineHeight

/-- One observable step of the pagination run. -/
inductive PdfEvent where
  /-- A wrapped title line drawn by `drawPageTitle` on `page` (including
  blank title lines, whose vertical space is consumed even though
  `drawCenteredLine` issues no draw call for them). -/
  | titleLine (page : Nat) (line : RenderLine)
  /-- A content line drawn at the current column of the current page. -/
  | placedLine (page col : Nat) (line : RenderLine)
  /-- `advanceColumnOrPage` moved to column `newCol` of the same page
  while placing a block with the given `hasHeading` flag and section
  heading text. -/
  | columnBreak (page newCol : Nat) (blockHasHeading : Bool) (headingText : String)
  /-- `advanceColumnOrPage` started page `newPage` while placing a block
  with the given `hasHeading` flag and section heading text. -/
  | pageBreak (newPage : Nat) (blockHasHeading : Bool) (headingText : String)
  /-- A `"Page X of Y"` footer drawn in the second pass. -/
  | footerLine (page : Nat) (text : String)
deriving DecidableEq, Repr

/-- The mutable state of `downloadPdf`'s placement loop, plus the event
trace accumulated so far. -/
structure PdfState where
  page : Nat
  columnIndex : Nat
  y : Nat
  contentStartY : Nat
  events : List PdfEvent
  aborted : Option String
deriving DecidableEq, Repr

/-- The title lines drawn by `startNewPage` on page `page`. -/
def titleEvents (cfg : PdfConfig) (title : String) (page : Nat) : List PdfEvent :=
  (wrappedTitleOf cfg title).map (.titleLine page)

/-- `advanceColumnOrPage()` of the source; the returned `Bool` is its
`movedToNewPage` result.  The page-cap branch calls `abortRender` and
emits nothing. -/
def advanceColumnOrPage (cfg : PdfConfig) (title : String) (hasHeading : Bool)
    (headingText : String) (st : PdfState) : PdfState × Bool :=
  if st.columnIndex + 1 < effectiveColumns cfg then
    ({ st with columnIndex := st.columnIndex + 1, y := st.contentStartY,
               events := st.events ++
                 [.columnBreak st.page (st.columnIndex + 1) hasHeading headingText] }, false)
  else if MAX_PDF_PAGES ≤ st.page then
    ({ st with aborted := some pageCapMessage }, true)
  else
    let p := st.page + 1
    let csy := contentStartYOf cfg title
    ({ st with page := p, columnIndex := 0, y := csy, contentStartY := csy,
               events := st.events ++ [.pageBreak p hasHeading headingText] ++
                 titleEvents cfg title p }, true)

/-- `drawContinuedSectionHeading(sectionHeading)` of the source: wrap
`"<heading> (cont.)"` at column width, append a blank spacer line, draw,
and advance `y`. -/
def drawContinuedSectionHeading (cfg : PdfConfig) (headingText : String)
    (st : PdfState) : PdfState :=
  let continuedHeading := makeStyledLine (headingText ++ " (cont.)") .bold
  let headingLines := cfg.wrapContent continuedHeading ++ [makePlainLine ""]
  { st with events := st.events ++ headingLines.map (.placedLine st.page st.columnIndex),
            y := st.y + headingLines.length * cfg.lineHeight }

/-- The `advanceColumnOrPage(); if (renderAborted) return; if
(movedToNewPage && !block.hasHeading) drawContinuedSectionHeading(...)`
sequence that both placement paths of `downloadPdf` perform. -/
def advanceWithContinuation (cfg : PdfConfig) (title : String) (hasHeading : Bool)
    (headingText : String) (st : PdfState) : PdfState :=
  let adv := advanceColumnOrPage cfg title hasHeading headingText st
  if adv.1.aborted.isSome then adv.1
  else if adv.2 && !hasHeading then drawContinuedSectionHeading cfg headingText adv.1
  else adv.1

/-- `drawOneLine(line)` of the source. -/
def drawOneLine (cfg : PdfConfig) (line : RenderLine) (st : PdfState) : PdfState :=
  { st with events := st.events ++ [.placedLine st.page st.columnIndex line],
            y := st.y + cfg.lineHeight }

/-- The line-by-line placement of an oversized block (`blockHeight >
usableHeight` branch): before each line, advance if the line would
overflow, then draw it.  An abort stops the run (the source `return`s out
of `downloadPdf`). -/
def placeOversizedLines (cfg : PdfConfig) (title : String) (hasHeading : Bool)
    (headingText : String) : List RenderLine → PdfState → PdfState
  | [], st => st
  | line :: rest, st =>
    if st.aborted.isSome then st
    else
      let st1 :=
        if usableHeightOf cfg < st.y + cfg.lineHeight then
          advanceWithContinuation cfg title hasHeading headingText st
        else st
      if st1.aborted.isSome then st1
      else placeOversizedLines cfg title hasHeading headingText rest (drawOneLine cfg line st1)

/-- The provisional trailing-blank-line trim at the top of the per-block
loop body.  The JS comparisons `fullHeight > remaining + fitSlack` (with
`remaining = usableHeight - y` possibly negative) are rearranged to the
overflow-free `usableHeight + fitSlack < fullHeight + y`. -/
def linesToDrawFor (cfg : PdfConfig) (block : RenderBlock) (y : Nat) : List RenderLine :=
  let trailingBlankCount := countTrailingBlankLines block.lines
  if 0 < trailingBlankCount then
    let trimmedLines := block.lines.take (block.lines.length - trailingBlankCount)
    let fullHeight := block.lines.length * cfg.lineHeight
    let trimmedHeight := trimmedLines.length * cfg.lineHeight
    if usableHeightOf cfg + fitSlackOf cfg < fullHeight + y ∧
        trimmedHeight + y ≤ usableHeightOf cfg + fitSlackOf cfg then
      trimmedLines
    else block.lines
  else block.lines

/-- The per-block body of `downloadPdf`'s main loop: trim, the
oversized/line-by-line versus whole-block fit decision, the single
column/page advance, and the draw. -/
def placeBlock (cfg : PdfConfig) (title : String) (block : RenderBlock)
    (st : PdfState) : PdfState :=
  if st.aborted.isSome then st
  else
    let headingText := lineText block.sectionHeading
    let linesToDraw := linesToDrawFor cfg block st.y
    let blockHeight := linesToDraw.length * cfg.lineHeight
    if usableHeightOf cfg < blockHeight then
      placeOversizedLines cfg title block.hasHeading headingText linesToDraw st
    else
      let st1 :=
        if usableHeightOf cfg + fitSlackOf cfg < blockHeight + st.y then
          advanceWithContinuation cfg title block.hasHeading headingText st
        else st
      if st1.aborted.isSome then st1
      else
        { st1 with
            events := st1.events ++ linesToDraw.map (.placedLine st1.page st1.columnIndex),
            y := st1.y + blockHeight }

/-- The wrapped blocks `downloadPdf` computes before placement. -/
def wrappedBlocksOf (cfg : PdfConfig) (docModel : RenderDocument) : List RenderBlock :=
  docModel.blocks.map fun block =>
    { lines := block.lines.flatMap cfg.wrapContent,
      sectionHeading := block.sectionHeading,
      hasHeading := block.hasHeading }

/-- `totalWrappedLines` of `downloadPdf`. -/
def totalWrappedLines (cfg : PdfConfig) (docModel : RenderDocument) : Nat :=
  (wrappedBlocksOf cfg docModel).foldl (fun sum block => sum + block.lines.length)
    (wrappedTitleOf cfg docModel.title).length

/-- The state after `startNewPage()` on the first page of a fresh
document (a new `jsPDF` starts with one page). -/
def initialPdfState (cfg : PdfConfig) (title : String) : PdfState :=
  { page := 1, columnIndex := 0,
    y := contentStartYOf cfg title, contentStartY := contentStartYOf cfg title,
    events := titleEvents cfg title 1, aborted := none }

/-- The placement loop of `downloadPdf` over all wrapped blocks. -/
def renderStateOf (cfg : PdfConfig) (docModel : RenderDocument) : PdfState :=
  (wrappedBlocksOf cfg docModel).foldl (fun st block => placeBlock cfg docModel.title block st)
    (initialPdfState cfg docModel.title)

/-- The `"Page X of Y"` footer pass. -/
def footerEvents (pageCount : Nat) : List PdfEvent :=
  (List.range' 1 pageCount).map fun p =>
    .footerLine p ("Page " ++ toString p ++ " of " ++ toString pageCount)

/-- `downloadPdf(fileName, docModel, ...)` of the source: the wrapped-line
cap is checked before any placement; then blocks are placed; an abort
reports its message and saves no file (`Except.error`); otherwise footers
are drawn and the document is saved (`Except.ok` with the full trace). -/
def downloadPdf (cfg : PdfConfig) (docModel : RenderDocument) :
    Except String (List PdfEvent) :=
  let total := totalWrappedLines cfg docModel
  if MAX_RENDER_LINES < total then
    .error (lineCapMessage total)
  else
    let st := renderStateOf cfg docModel
    match st.aborted with
    | some message => .error message
    | none => .ok (st.events ++ footerEvents st.page)

/-! ## Observing continuation headings on the trace -/

/-- Is this event a title line? -/
def isTitleEvent : PdfEvent → Bool
  | .titleLine .. => true
  | _ => false

/-- The lines `drawContinuedSectionHeading` lays out for a section
heading text: the wrapped `"<heading> (cont.)"` plus a blank spacer. -/
def expectedContinuation (wrap : RenderLine → List RenderLine)
    (headingText : String) : List RenderLine :=
  wrap (makeStyledLine (headingText ++ " (cont.)") .bold) ++ [makePlainLine ""]

/-- Do the next events place exactly the given lines, in order? -/
def placedPrefixMatches : List RenderLine → List PdfEvent → Bool
  | [], _ => true
  | _ :: _, [] => false
  | l :: ls, e :: es =>
    match e with
    | .placedLine _ _ l2 => decide (l2 = l) && placedPrefixMatches ls es
    | _ => false

/-- Does every break of the trace that happened inside a block without a
fresh section heading resume with the continued section heading?  With
`alsoColumns := true` the requirement covers column breaks as well as
page breaks (the design document's reading); with `alsoColumns := false`
only page breaks are required to re-emit the heading.  Title lines drawn
at the top of a fresh page are skipped before the comparison. -/
def contHeadingCheck (wrap : RenderLine → List RenderLine) (alsoColumns : Bool) :
    List PdfEvent → Bool
  | [] => true
  | e :: rest =>
    (match e with
     | .pageBreak _ hasHeading headingText =>
       hasHeading ||
         placedPrefixMatches (expectedContinuation wrap headingText)
           (rest.dropWhile isTitleEvent)
     | .columnBreak _ _ hasHeading headingText =>
       !alsoColumns || hasHeading ||
         placedPrefixMatches (expectedContinuation wrap headingText)
           (rest.dropWhile isTitleEvent)
     | _ => true) && contHeadingCheck wrap alsoColumns rest

/-- The laws of a well-behaved three-way integer comparator. -/
structure LawfulCmpInt {α : Type _} (c : α → α → Int) : Prop where
  swap : ∀ a b, c b a = -c a b
  lt_le : ∀ a b d, c a b < 0 → c b d ≤ 0 → c a d < 0
  zero_trans : ∀ a b d, c a b = 0 → c b d = 0 → c a d = 0

/-- The `if (c !== 0) return c; ...` combination of two comparison
results. -/
def thenInt (x y : Int) : Int :=
  if x ≠ 0 then x else y

/-- The key used at the sequence precedence level: blank sequences order
first, non-blank ones by collation key. -/
def seqSortKey (s : String) : List Nat :=
  if jsTrim s = "" then [] else 1 :: localeKey s

/-- The parse result of the concrete two-entry report used to witness
C1. -/
def c1WitnessParse : ParseResult :=
  ⟨"Unknown Library", "Unknown date",
   [⟨["F HAR Harper 301201", "Harper, Lee", "Item Type: Adult Fiction"],
     "301201", "F", "Harper, Lee", "Adult Fiction", "", .adult, 0⟩,
    ⟨["J ROW Row 301202", "Row, J", "Item Type: Junior Fiction"],
     "301202", "J", "Row, J", "Junior Fiction", "", .junior, 1⟩]⟩

/-- The matching relation of the `i` regex flag. -/
def charCIRel (p c : Char) : Prop :=
  charCI p c = true

/-- A two-column configuration (wrapping returns every line unchanged, as
the backend does when lines fit the column width). -/
def c8CexConfig : PdfConfig :=
  { columnCount := 2, lineHeight := 10, pageHeight := 120,
    wrapContent := fun l => [l], wrapTitle := fun l => [l] }

/-- A document whose second block continues the section of the first
(`hasHeading := false`) and overflows into the second column. -/
def c8CexDoc : RenderDocument :=
  { title := "T",
    blocks :=
      [{ lines := [makePlainLine "a"], sectionHeading := makeStyledLine "H" .bold,
         hasHeading := true },
       { lines := [makePlainLine "b"], sectionHeading := makeStyledLine "H" .bold,
         hasHeading := false }] }

/-! ## Concrete configurations and documents used by the claim witnesses
and counterexamples -/

/-- A one-column configuration whose content area fits 24 one-unit lines
per page (wrapping returns every line unchanged). -/
def c9CexConfig : PdfConfig :=
  { columnCount := 1, lineHeight := 1, pageHeight := 76,
    wrapContent := fun l => [l], wrapTitle := fun l => [l] }

/-- A 24-line block: it exactly fills a page, so the next block always
forces a page advance. -/
def c9CexSmallBlock : RenderBlock :=
  { lines := List.replicate 24 (makePlainLine "x"),
    sectionHeading := makePlainLine "Heading", hasHeading := true }

/-- A 23-line closing block bringing the document total to exactly
12,000 wrapped lines. -/
def c9CexLastBlock : RenderBlock :=
  { lines := List.replicate 23 (makePlainLine "x"),
    sectionHeading := makePlainLine "Heading", hasHeading := true }

/-- A document of exactly 12,000 wrapped lines (1 title line, 499 full
pages, 23 final lines) whose placement needs a 501st page. -/
def c9CexDoc : RenderDocument :=
  { title := "T", blocks := List.replicate 499 c9CexSmallBlock ++ [c9CexLastBlock] }

/-- A document of 12,025 wrapped lines, just over the line cap. -/
def c9WitDoc : RenderDocument :=
  { title := "T", blocks := List.replicate 501 c9CexSmallBlock }

/-! # Theorems

## Order-theoretic facts about the collation keys -/

theorem natCompare_swap (a b : Nat) : compare b a = (compare a b).swap := by
  simp only [Nat.compare_def_lt]
  split_ifs <;> first | rfl | omega

theorem cmpNatList_self (l : List Nat) : cmpNatList l l = .eq := by
  induction l with
  | nil => rfl
  | cons a as ih => simp [cmpNatList, Nat.compare_def_lt, ih, Ordering.then]

theorem cmpNatList_swap : ∀ a b : List Nat, cmpNatList b a = (cmpNatList a b).swap
  | [], [] => rfl
  | [], _ :: _ => rfl
  | _ :: _, [] => rfl
  | a :: as, b :: bs => by
    simp only [cmpNatList, Ordering.swap_then, natCompare_swap a b, cmpNatList_swap as bs]

theorem cmpNatList_eq_trans : ∀ {a b c : List Nat},
    cmpNatList a b = .eq → cmpNatList b c = .eq → cmpNatList a c = .eq
  | [], [], [], _, _ => rfl
  | [], [], _ :: _, _, h2 => by simp [cmpNatList] at h2
  | [], _ :: _, _, h1, _ => by simp [cmpNatList] at h1
  | _ :: _, [], _, h1, _ => by simp [cmpNatList] at h1
  | _ :: _, _ :: _, [], _, h2 => by simp [cmpNatList] at h2
  | a :: as, b :: bs, c :: cs, h1, h2 => by
    simp only [cmpNatList, Ordering.then_eq_eq] at h1 h2 ⊢
    obtain ⟨hab, h1'⟩ := h1
    obtain ⟨hbc, h2'⟩ := h2
    have hab' : a = b := Nat.compare_eq_eq.1 hab
    subst hab'
    exact ⟨hbc, cmpNatList_eq_trans h1' h2'⟩

theorem cmpNatList_le_trans : ∀ {a b c : List Nat},
    cmpNatList a b ≠ .gt → cmpNatList b c ≠ .gt → cmpNatList a c ≠ .gt
  | [], _, c, _, _ => by cases c <;> simp [cmpNatList]
  | _ :: _, [], _, h1, _ => absurd rfl h1
  | _ :: _, _ :: _, [], _, h2 => absurd rfl h2
  | a :: as, b :: bs, c :: cs, h1, h2 => by
    simp only [cmpNatList, ne_eq, Ordering.then_eq_gt, not_or, not_and] at h1 h2 ⊢
    obtain ⟨hab, h1'⟩ := h1
    obtain ⟨hbc, h2'⟩ := h2
    rcases eab : compare a b with _ | _ | _
    · rcases ebc : compare b c with _ | _ | _
      · have hac : compare a c = .lt := by
          rw [Nat.compare_eq_lt] at eab ebc ⊢
          omega
        simp [hac]
      · have hbc' : b = c := Nat.compare_eq_eq.1 ebc
        subst hbc'
        simp [eab]
      · exact absurd ebc hbc
    · have hab' : a = b := Nat.compare_eq_eq.1 eab
      subst hab'
      rcases ebc : compare a c with _ | _ | _
      · simp
      · constructor
        · simp
        · intro _
          exact cmpNatList_le_trans (h1' eab) (h2' ebc)
      · exact absurd ebc hbc
    · exact absurd eab hab

theorem cmpNatList_lt_le_trans : ∀ {a b c : List Nat},
    cmpNatList a b = .lt → cmpNatList b c ≠ .gt → cmpNatList a c = .lt
  | [], [], _, h1, _ => by simp [cmpNatList] at h1
  | [], _ :: _, [], _, h2 => absurd rfl h2
  | [], _ :: _, _ :: _, _, _ => rfl
  | _ :: _, [], _, h1, _ => by simp [cmpNatList] at h1
  | _ :: _, _ :: _, [], _, h2 => absurd rfl h2
  | a :: as, b :: bs, c :: cs, h1, h2 => by
    simp only [cmpNatList, Ordering.then_eq_lt, ne_eq, Ordering.then_eq_gt, not_or,
      not_and] at h1 h2 ⊢
    obtain ⟨hbc, h2'⟩ := h2
    rcases h1 with h1 | ⟨hab, h1'⟩
    · rcases ebc : compare b c with _ | _ | _
      · left
        rw [Nat.compare_eq_lt] at h1 ebc ⊢
        omega
      · have hbc' : b = c := Nat.compare_eq_eq.1 ebc
        subst hbc'
        exact Or.inl h1
      · exact absurd ebc hbc
    · have hab' : a = b := Nat.compare_eq_eq.1 hab
      subst hab'
      rcases ebc : compare a c with _ | _ | _
      · exact Or.inl rfl
      · exact Or.inr ⟨rfl, cmpNatList_lt_le_trans h1' (h2' ebc)⟩
      · exact absurd ebc hbc

/-! ## Lawful integer comparators

`compareEntries` returns an `Int` whose sign carries the comparison; the
following predicate isolates the order-theoretic laws needed for the
lexicographic composition and the sort. -/

theorem LawfulCmpInt.congr {α : Type _} {c c' : α → α → Int}
    (h : LawfulCmpInt c) (he : ∀ a b, c' a b = c a b) : LawfulCmpInt c' := by
  refine ⟨fun a b => ?_, fun a b d h1 h2 => ?_, fun a b d h1 h2 => ?_⟩ <;>
    simp only [he] at *
  · exact h.swap a b
  · exact h.lt_le a b d h1 h2
  · exact h.zero_trans a b d h1 h2

theorem LawfulCmpInt.zero_lt {α : Type _} {c : α → α → Int} (h : LawfulCmpInt c)
    {a b d : α} (h1 : c a b = 0) (h2 : c b d < 0) : c a d < 0 := by
  by_contra hc
  push_neg at hc
  have hda : c d a ≤ 0 := by
    rw [h.swap]
    omega
  have hba : c b a < 0 := h.lt_le b d a h2 hda
  rw [h.swap] at hba
  omega

theorem LawfulCmpInt.le_trans {α : Type _} {c : α → α → Int} (h : LawfulCmpInt c)
    {a b d : α} (h1 : c a b ≤ 0) (h2 : c b d ≤ 0) : c a d ≤ 0 := by
  rcases lt_or_eq_of_le h1 with h1' | h1'
  · exact le_of_lt (h.lt_le a b d h1' h2)
  · rcases lt_or_eq_of_le h2 with h2' | h2'
    · exact le_of_lt (h.zero_lt h1' h2')
    · exact le_of_eq (h.zero_trans a b d h1' h2')

theorem LawfulCmpInt.le_total {α : Type _} {c : α → α → Int} (h : LawfulCmpInt c)
    (a b : α) : c a b ≤ 0 ∨ c b a ≤ 0 := by
  by_cases hab : c a b ≤ 0
  · exact Or.inl hab
  · right
    rw [h.swap]
    omega

/-- Comparators given by subtracting an integer measure are lawful. -/
theorem lawfulCmpInt_diff {α : Type _} (f : α → Int) :
    LawfulCmpInt (fun a b => f a - f b) := by
  refine ⟨fun a b => ?_, fun a b d h1 h2 => ?_, fun a b d h1 h2 => ?_⟩ <;> omega

theorem ordToInt_swap (o : Ordering) : ordToInt o.swap = -ordToInt o := by
  cases o <;> rfl

theorem ordToInt_neg_iff (o : Ordering) : ordToInt o < 0 ↔ o = .lt := by
  cases o <;> simp [ordToInt]

theorem ordToInt_nonpos_iff (o : Ordering) : ordToInt o ≤ 0 ↔ o ≠ .gt := by
  cases o <;> simp [ordToInt]

theorem ordToInt_eq_zero_iff (o : Ordering) : ordToInt o = 0 ↔ o = .eq := by
  cases o <;> simp [ordToInt]

/-- Comparators given by a `cmpNatList` key are lawful. -/
theorem lawfulCmpInt_key {α : Type _} (f : α → List Nat) :
    LawfulCmpInt (fun a b => ordToInt (cmpNatList (f a) (f b))) := by
  refine ⟨fun a b => ?_, fun a b d h1 h2 => ?_, fun a b d h1 h2 => ?_⟩
  · rw [cmpNatList_swap, ordToInt_swap]
  · rw [ordToInt_neg_iff] at h1 ⊢
    rw [ordToInt_nonpos_iff] at h2
    exact cmpNatList_lt_le_trans h1 h2
  · rw [ordToInt_eq_zero_iff] at h1 h2 ⊢
    exact cmpNatList_eq_trans h1 h2

/-! ## Lexicographic composition and lawfulness of `compareEntries` -/

theorem thenInt_eq_zero {x y : Int} : thenInt x y = 0 ↔ x = 0 ∧ y = 0 := by
  by_cases h : x = 0 <;> simp [thenInt, h]

theorem thenInt_neg_iff {x y : Int} : thenInt x y < 0 ↔ x < 0 ∨ (x = 0 ∧ y < 0) := by
  by_cases h : x = 0 <;> simp [thenInt, h]

theorem thenInt_nonpos_iff {x y : Int} : thenInt x y ≤ 0 ↔ x < 0 ∨ (x = 0 ∧ y ≤ 0) := by
  by_cases h : x = 0
  · simp [thenInt, h]
  · rw [thenInt, if_pos h]
    omega

theorem lawfulCmpInt_thenInt {α : Type _} {c1 c2 : α → α → Int}
    (h1 : LawfulCmpInt c1) (h2 : LawfulCmpInt c2) :
    LawfulCmpInt (fun a b => thenInt (c1 a b) (c2 a b)) := by
  refine ⟨fun a b => ?_, fun a b d ha hb => ?_, fun a b d ha hb => ?_⟩
  · rw [h1.swap, h2.swap]
    by_cases hc : c1 a b = 0 <;> simp [thenInt, hc]
  · rw [thenInt_neg_iff] at ha ⊢
    rw [thenInt_nonpos_iff] at hb
    rcases ha with ha | ⟨ha0, ha2⟩
    · rcases hb with hb | ⟨hb0, hb2⟩
      · exact Or.inl (h1.lt_le a b d ha (le_of_lt hb))
      · exact Or.inl (h1.lt_le a b d ha (le_of_eq hb0))
    · rcases hb with hb | ⟨hb0, hb2⟩
      · exact Or.inl (h1.zero_lt ha0 hb)
      · exact Or.inr ⟨h1.zero_trans a b d ha0 hb0, h2.lt_le a b d ha2 hb2⟩
  · rw [thenInt_eq_zero] at ha hb ⊢
    exact ⟨h1.zero_trans a b d ha.1 hb.1, h2.zero_trans a b d ha.2 hb.2⟩

theorem compareSequence_eq_key (a b : String) :
    compareSequence a b = ordToInt (cmpNatList (seqSortKey a) (seqSortKey b)) := by
  by_cases ha : jsTrim a = "" <;> by_cases hb : jsTrim b = "" <;>
    simp [compareSequence, seqSortKey, ha, hb, cmpNatList, ordToInt, compareText,
      Nat.compare_def_lt, Ordering.then]

/-- `compareEntries` as a right-nested lexicographic composition. -/
theorem compareEntries_eq_thenInt (a b : Entry) : compareEntries a b =
    thenInt (compareTypeBucket a.itemType b.itemType)
      (thenInt (compareText a.itemType b.itemType)
        (thenInt (compareSequence
            (normalizeSequenceForSorting a.itemType a.sequence)
            (normalizeSequenceForSorting b.itemType b.sequence))
          (thenInt (compareText a.shelfmark b.shelfmark)
            (thenInt (compareText a.author b.author)
              (thenInt (compareText a.barcode b.barcode)
                ((a.originalIndex : Int) - (b.originalIndex : Int))))))) := rfl

theorem lawfulCmpInt_compareEntries : LawfulCmpInt compareEntries := by
  have hbucket := lawfulCmpInt_diff (fun e : Entry => (itemTypeBucket e.itemType : Int))
  have htype := lawfulCmpInt_key (fun e : Entry => localeKey e.itemType)
  have hseq : LawfulCmpInt (fun a b : Entry => compareSequence
      (normalizeSequenceForSorting a.itemType a.sequence)
      (normalizeSequenceForSorting b.itemType b.sequence)) := by
    refine (lawfulCmpInt_key (fun e : Entry =>
      seqSortKey (normalizeSequenceForSorting e.itemType e.sequence))).congr ?_
    intro a b
    exact compareSequence_eq_key _ _
  have hshelf := lawfulCmpInt_key (fun e : Entry => localeKey e.shelfmark)
  have hauthor := lawfulCmpInt_key (fun e : Entry => localeKey e.author)
  have hbarcode := lawfulCmpInt_key (fun e : Entry => localeKey e.barcode)
  have hidx := lawfulCmpInt_diff (fun e : Entry => (e.originalIndex : Int))
  refine LawfulCmpInt.congr ?_ compareEntries_eq_thenInt
  exact lawfulCmpInt_thenInt hbucket (lawfulCmpInt_thenInt htype
    (lawfulCmpInt_thenInt hseq (lawfulCmpInt_thenInt hshelf
      (lawfulCmpInt_thenInt hauthor (lawfulCmpInt_thenInt hbarcode hidx)))))

/-- C7: `compareEntries` defines a strict total order on entries — it
returns `0` only for two entries with equal `originalIndex` (the final
tie-break), the induced non-strict relation is transitive and total, and
sorting an already-sorted list again yields the identical ordering, so
the sort is deterministic and idempotent. -/
theorem c7_compareEntries_strict_total_and_deterministic :
    (∀ a b : Entry, compareEntries a b = 0 → a.originalIndex = b.originalIndex) ∧
    (∀ a b c : Entry, compareEntries a b ≤ 0 → compareEntries b c ≤ 0 →
      compareEntries a c ≤ 0) ∧
    (∀ a b : Entry, compareEntries a b ≤ 0 ∨ compareEntries b a ≤ 0) ∧
    (∀ l : List Entry, sortEntries (sortEntries l) = sortEntries l) := by
  have hlaw := lawfulCmpInt_compareEntries
  refine ⟨?_, ?_, ?_, ?_⟩
  · intro a b h
    rw [compareEntries_eq_thenInt] at h
    simp only [thenInt_eq_zero] at h
    obtain ⟨-, -, -, -, -, -, h7⟩ := h
    omega
  · intro a b c h1 h2
    exact hlaw.le_trans h1 h2
  · intro a b
    exact hlaw.le_total a b
  · intro l
    unfold sortEntries
    apply List.mergeSort_of_sorted
    apply List.sorted_mergeSort
    · intro a b c h1 h2
      simp only [decide_eq_true_eq] at h1 h2 ⊢
      exact hlaw.le_trans h1 h2
    · intro a b
      simp only [Bool.or_eq_true, decide_eq_true_eq]
      exact hlaw.le_total a b

/-- Witness for C7: two concrete entries that differ only in data outside
the comparison key compare as `0`, and the theorem then forces their
`originalIndex` values to agree; the transitivity conjunct is likewise
instantiated at concrete entries. -/
theorem c7_witness :
    (Entry.originalIndex
        ⟨["F HAR row 301201"], "301201", "F", "Harper", "Adult Fiction", "Saga", .adult, 5⟩ =
      Entry.originalIndex
        ⟨["other raw text"], "301201", "F", "Harper", "Adult Fiction", "Saga", .adult, 5⟩) ∧
    compareEntries
        ⟨[], "301201", "A", "x", "Adult Fiction", "", .adult, 1⟩
        ⟨[], "301203", "C", "z", "Adult Fiction", "", .adult, 3⟩ ≤ 0 :=
  ⟨c7_compareEntries_strict_total_and_deterministic.1 _ _ (by decide),
   c7_compareEntries_strict_total_and_deterministic.2.1
     ⟨[], "301201", "A", "x", "Adult Fiction", "", .adult, 1⟩
     ⟨[], "301202", "B", "y", "Adult Fiction", "", .adult, 2⟩
     ⟨[], "301203", "C", "z", "Adult Fiction", "", .adult, 3⟩
     (by decide) (by decide)⟩

/-! ## Parser correctness -/

theorem gatherRecords_heads : ∀ (ls : List String) (cur : List String),
    (cur = [] ∨ isEntryStart (cur.headD "") = true) →
    ∀ r ∈ gatherRecords ls cur, r ≠ [] ∧ isEntryStart (r.headD "") = true
  | [], cur, hcur, r, hr => by
    simp only [gatherRecords] at hr
    by_cases hc : cur.isEmpty
    · simp [hc] at hr
    · simp only [hc, Bool.false_eq_true, if_false, List.mem_singleton] at hr
      subst hr
      rcases hcur with hcur | hcur
      · simp [hcur] at hc
      · exact ⟨by simpa [List.isEmpty_iff] using hc, hcur⟩
  | line :: rest, cur, hcur, r, hr => by
    simp only [gatherRecords] at hr
    by_cases hstart : isEntryStart line
    · simp only [hstart, if_true] at hr
      by_cases hc : cur.isEmpty
      · simp only [hc, if_true] at hr
        exact gatherRecords_heads rest [line] (Or.inr (by simpa using hstart)) r hr
      · simp only [hc, Bool.false_eq_true, if_false, List.mem_cons] at hr
        rcases hr with hr | hr
        · subst hr
          rcases hcur with hcur | hcur
          · simp [hcur] at hc
          · exact ⟨by simpa [List.isEmpty_iff] using hc, hcur⟩
        · exact gatherRecords_heads rest [line] (Or.inr (by simpa using hstart)) r hr
    · simp only [hstart, Bool.false_eq_true, if_false] at hr
      by_cases hc : cur.isEmpty
      · simp only [hc, if_true] at hr
        exact gatherRecords_heads rest [] (Or.inl rfl) r hr
      · simp only [hc, Bool.false_eq_true, if_false] at hr
        refine gatherRecords_heads rest (cur ++ [line]) (Or.inr ?_) r hr
        rcases hcur with hcur | hcur
        · simp [hcur] at hc
        · rcases cur with _ | ⟨c, cs⟩
          · simp at hc
          · simpa using hcur

theorem gatherRecords_length : ∀ (ls : List String) (cur : List String),
    (gatherRecords ls cur).length =
      ls.countP isEntryStart + (if cur.isEmpty then 0 else 1)
  | [], cur => by
    by_cases hc : cur.isEmpty <;> simp [gatherRecords, hc, List.countP_nil]
  | line :: rest, cur => by
    by_cases hstart : isEntryStart line <;> by_cases hc : cur.isEmpty <;>
      simp [gatherRecords, hstart, hc, List.countP_cons, gatherRecords_length rest]

theorem parseEntry_ok_of_entryStart {r : List String} (i : Nat)
    (h : isEntryStart (r.headD "") = true) :
    ∃ e, parseEntry r i = .ok e ∧ e.originalIndex = i := by
  unfold isEntryStart at h
  rw [Option.isSome_iff_exists] at h
  obtain ⟨⟨pre, barcode⟩, hm⟩ := h
  unfold parseEntry
  simp only [hm]
  exact ⟨_, rfl, rfl⟩

theorem parseAllRecords_ok : ∀ (rs : List (List String)) (i : Nat),
    (∀ r ∈ rs, r ≠ [] ∧ isEntryStart (r.headD "") = true) →
    ∃ es, parseAllRecords rs i = .ok es ∧ es.length = rs.length ∧
      es.map (·.originalIndex) = List.range' i rs.length
  | [], _, _ => ⟨[], rfl, rfl, rfl⟩
  | r :: rs, i, h => by
    obtain ⟨e, he, hei⟩ := parseEntry_ok_of_entryStart i (h r (by simp)).2
    obtain ⟨es, hes, hlen, hidx⟩ :=
      parseAllRecords_ok rs (i + 1) (fun r' hr' => h r' (by simp [hr']))
    refine ⟨e :: es, ?_, by simp [hlen], ?_⟩
    · simp only [parseAllRecords, he, hes]
    · simp [hei, hidx, hlen, List.range'_succ]

theorem parseLines_ok_of_found {lines : List String} {k : Nat}
    (hfind : lines.findIdx? isEntryStart = some k) :
    ∃ pr, parseLines lines = .ok pr ∧
      pr.entries.length = (lines.filter isEntryStart).length ∧
      pr.entries.map (·.originalIndex) = List.range' 0 pr.entries.length := by
  obtain ⟨hk, hkeq⟩ := List.findIdx?_eq_some_iff_findIdx_eq.1 hfind
  have hstart : isEntryStart lines[k] = true := by
    have hgot := @List.findIdx_getElem _ isEntryStart lines (by omega)
    simpa [hkeq] using hgot
  have hdrop : lines.drop k = lines[k] :: lines.drop (k + 1) :=
    List.drop_eq_getElem_cons hk
  have htake0 : (lines.take k).countP isEntryStart = 0 := by
    rw [List.countP_eq_zero]
    intro a ha
    rw [List.mem_take_iff_getElem] at ha
    obtain ⟨i, hi, rfl⟩ := ha
    have hik : i < List.findIdx isEntryStart lines := by
      simp only [lt_min_iff] at hi
      omega
    simpa using List.not_of_lt_findIdx hik
  have hcount : (lines.drop k).countP isEntryStart = lines.countP isEntryStart := by
    conv_rhs => rw [← List.take_append_drop k lines]
    rw [List.countP_append, htake0, Nat.zero_add]
  have hpos : 0 < (lines.drop k).countP isEntryStart := by
    rw [hdrop, List.countP_cons]
    simp [hstart]
  have hrec := gatherRecords_length (lines.drop k) []
  simp only [List.isEmpty_nil, if_pos, Nat.add_zero] at hrec
  obtain ⟨es, hes, hlen, hidx⟩ := parseAllRecords_ok (gatherRecords (lines.drop k) []) 0
    (gatherRecords_heads _ [] (Or.inl rfl))
  have hN : es.length = (lines.filter isEntryStart).length := by
    rw [hlen, hrec, hcount, List.countP_eq_length_filter]
  have hne : es.length ≠ 0 := by
    rw [hlen, hrec]
    omega
  refine ⟨{ libraryName := (extractHeaderMetadata (lines.take k)).1,
            reportDate := (extractHeaderMetadata (lines.take k)).2,
            entries := es }, ?_, hN, by rw [hidx, hlen]⟩
  unfold parseLines
  rw [hfind]
  simp only [hes]
  rw [if_neg (fun hcon => hcon hN), if_neg hne]

theorem findIdx_some_of_filter_pos {lines : List String}
    (h : 0 < (lines.filter isEntryStart).length) :
    ∃ k, lines.findIdx? isEntryStart = some k := by
  rw [← Option.isSome_iff_exists, List.findIdx?_isSome, List.any_eq_true]
  rcases hf : lines.filter isEntryStart with _ | ⟨x, xs⟩
  · rw [hf] at h
    simp at h
  · have hx : x ∈ lines.filter isEntryStart := by
      rw [hf]
      exact List.mem_cons_self x xs
    rw [List.mem_filter] at hx
    exact ⟨x, hx.1, hx.2⟩

/-- C2: for every input whose lines contain exactly `N ≥ 1` lines
matching the entry-start pattern, `parseList` succeeds and produces
exactly `N` entries.  (The claim's alternative outcome — failure with a
message citing `N` and a smaller parsed count — is never reached: because
record accumulation opens a record at every entry-start line, the
integrity recount always agrees.) -/
theorem c2_parseList_produces_one_entry_per_start_line (input : String) :
    1 ≤ ((splitLines input).filter isEntryStart).length →
    ∃ pr, parseList input = .ok pr ∧
      pr.entries.length = ((splitLines input).filter isEntryStart).length := by
  intro h
  obtain ⟨k, hk⟩ := @findIdx_some_of_filter_pos (splitLines input) (by omega)
  obtain ⟨pr, hpr, hlen, -⟩ := parseLines_ok_of_found hk
  exact ⟨pr, hpr, hlen⟩

/-- Witness for C2 at a concrete two-entry report. -/
theorem c2_witness :
    ∃ pr, parseList "Items at Oak Library\nF HAR Harper 301201\n\nJ ROW Row 301202" = .ok pr ∧
      pr.entries.length =
        ((splitLines "Items at Oak Library\nF HAR Harper 301201\n\nJ ROW Row 301202").filter
            isEntryStart).length :=
  c2_parseList_produces_one_entry_per_start_line
    "Items at Oak Library\nF HAR Harper 301201\n\nJ ROW Row 301202" (by decide)

/-- C3: `parseList` fails exactly when no entry-start line exists (with
the fixed "no item entries" message), and for every input containing at
least one entry-start line it succeeds — the other two failure
conditions of the design document (zero recovered entries, an entry-start
line failing its re-match) are unreachable, since every accumulated
record begins with an entry-start line. -/
theorem c3_parseList_failure_conditions (input : String) :
    ((∀ l ∈ splitLines input, isEntryStart l = false) →
      parseList input =
        .error "No item entries found. Check that the pasted text includes full reservation entries.") ∧
    ((∃ l ∈ splitLines input, isEntryStart l = true) →
      ∃ pr, parseList input = .ok pr) := by
  constructor
  · intro h
    unfold parseList parseLines
    rw [List.findIdx?_eq_none_iff.2 h]
  · intro h
    have hsome : (splitLines input).findIdx? isEntryStart ≠ none := by
      rw [ne_eq, List.findIdx?_eq_none_iff]
      push_neg
      obtain ⟨l, hl, hstart⟩ := h
      exact ⟨l, hl, by simp [hstart]⟩
    rcases hk : (splitLines input).findIdx? isEntryStart with _ | k
    · exact absurd hk hsome
    · obtain ⟨pr, hpr, -, -⟩ := parseLines_ok_of_found hk
      exact ⟨pr, hpr⟩

/-- Witness for C3: an input with no entry-start line is rejected with
the fixed message, and an input with one succeeds. -/
theorem c3_witness :
    parseList "just some notes\nwithout any barcode" =
      .error "No item entries found. Check that the pasted text includes full reservation entries." ∧
    ∃ pr, parseList "F HAR Harper 301201\nHarper, Lee" = .ok pr :=
  ⟨(c3_parseList_failure_conditions "just some notes\nwithout any barcode").1 (by decide),
   (c3_parseList_failure_conditions "F HAR Harper 301201\nHarper, Lee").2
     ⟨"F HAR Harper 301201", by decide, by decide⟩⟩

theorem parseLines_ok_indices {lines : List String} {pr : ParseResult}
    (h : parseLines lines = .ok pr) :
    pr.entries.map (·.originalIndex) = List.range' 0 pr.entries.length := by
  rcases hf : lines.findIdx? isEntryStart with _ | k
  · unfold parseLines at h
    rw [hf] at h
    exact absurd h (by simp)
  · obtain ⟨pr', hpr', -, hidx⟩ := parseLines_ok_of_found hf
    rw [hpr'] at h
    obtain rfl : pr' = pr := by
      simpa using h
    exact hidx

theorem toFinset_eq_of_perm (l1 l2 : List Nat) (h : l1.Perm l2) :
    l1.toFinset = l2.toFinset :=
  Finset.ext fun a => by rw [List.mem_toFinset, List.mem_toFinset, h.mem_iff]

/-- C1: for every successfully parsed input, `buildSortedLists` returns
counts with `adultCount + juniorCount = originalCount`, the
`originalIndex` sets of the adult and junior partitions are disjoint,
their union is the index set of all parsed entries, and `isValid` is
`true`. -/
theorem c1_buildSortedLists_partition (input : String) (pr : ParseResult)
    (h : parseList input = .ok pr) :
    (buildSortedLists pr).adultCount + (buildSortedLists pr).juniorCount =
      (buildSortedLists pr).originalCount ∧
    Disjoint
      ((sortEntries (pr.entries.filter (fun e => decide (e.audience = .adult)))).map
          (·.originalIndex)).toFinset
      ((sortEntries (pr.entries.filter (fun e => decide (e.audience = .junior)))).map
          (·.originalIndex)).toFinset ∧
    ((sortEntries (pr.entries.filter (fun e => decide (e.audience = .adult)))).map
          (·.originalIndex)).toFinset ∪
      ((sortEntries (pr.entries.filter (fun e => decide (e.audience = .junior)))).map
          (·.originalIndex)).toFinset =
      (pr.entries.map (·.originalIndex)).toFinset ∧
    (buildSortedLists pr).isValid = true := by
  have hidx : pr.entries.map (·.originalIndex) = List.range' 0 pr.entries.length :=
    parseLines_ok_indices h
  have hnd : (pr.entries.map (·.originalIndex)).Nodup := by
    rw [hidx]
    exact List.nodup_range' 0 pr.entries.length
  have hJA : ∀ e ∈ pr.entries,
      decide (e.audience = Audience.junior) = !decide (e.audience = Audience.adult) := by
    intro e _
    cases e.audience <;> simp
  have hpermA : (sortEntries (pr.entries.filter (fun e => decide (e.audience = .adult)))).Perm
      (pr.entries.filter (fun e => decide (e.audience = .adult))) :=
    List.mergeSort_perm _ _
  have hpermJ : (sortEntries (pr.entries.filter (fun e => decide (e.audience = .junior)))).Perm
      (pr.entries.filter (fun e => decide (e.audience = .junior))) :=
    List.mergeSort_perm _ _
  have hsplit : ((sortEntries (pr.entries.filter (fun e => decide (e.audience = .adult)))) ++
      (sortEntries (pr.entries.filter (fun e => decide (e.audience = .junior))))).Perm
      pr.entries := by
    refine (hpermA.append hpermJ).trans ?_
    rw [List.filter_congr hJA]
    exact List.filter_append_perm _ pr.entries
  have hfin : (((sortEntries (pr.entries.filter (fun e => decide (e.audience = .adult)))) ++
      (sortEntries (pr.entries.filter (fun e => decide (e.audience = .junior))))).map
        (·.originalIndex)).toFinset = (pr.entries.map (·.originalIndex)).toFinset :=
    toFinset_eq_of_perm _ _ (hsplit.map _)
  refine ⟨?_, ?_, ?_, ?_⟩
  · simp only [buildSortedLists]
    have := hsplit.length_eq
    simp only [List.length_append] at this
    simpa using this
  · rw [Finset.disjoint_left]
    intro a haA haJ
    simp only [List.mem_toFinset, List.mem_map] at haA haJ
    obtain ⟨e1, he1, he1i⟩ := haA
    obtain ⟨e2, he2, he2i⟩ := haJ
    rw [hpermA.mem_iff, List.mem_filter] at he1
    rw [hpermJ.mem_iff, List.mem_filter] at he2
    have he12 : e1 = e2 :=
      List.inj_on_of_nodup_map hnd he1.1 he2.1 (he1i.trans he2i.symm)
    have h1 : e1.audience = Audience.adult := by simpa using he1.2
    have h2 : e2.audience = Audience.junior := by simpa using he2.2
    rw [he12, h2] at h1
    exact absurd h1 (by simp)
  · rw [← hfin, List.map_append, List.toFinset_append]
  · simp only [buildSortedLists, Bool.and_eq_true, decide_eq_true_eq]
    constructor
    · rw [hfin]
    · rw [hfin]

/-- Witness for C1 at a concrete two-entry report. -/
theorem c1_witness :
    (buildSortedLists c1WitnessParse).adultCount +
        (buildSortedLists c1WitnessParse).juniorCount =
      (buildSortedLists c1WitnessParse).originalCount ∧
    (buildSortedLists c1WitnessParse).isValid = true :=
  have h := c1_buildSortedLists_partition
    "F HAR Harper 301201\nHarper, Lee\nItem Type: Adult Fiction\nJ ROW Row 301202\nRow, J\nItem Type: Junior Fiction"
    c1WitnessParse (by rfl)
  ⟨h.1, h.2.2.2⟩

/-! ## Case-insensitive containment is invariant under trimming

`classifyAudience` tests `/children/i` against the *trimmed* item type;
the design document phrases the rule on the raw field.  The two agree
because a case-insensitive occurrence of a whitespace-free word survives
trimming, proved here. -/

theorem jsWhitespace_toLower (c : Char) : jsWhitespace c.toLower = jsWhitespace c := by
  simp only [Char.toLower]
  by_cases h : c.toNat ≥ 65 ∧ c.toNat ≤ 90
  · rw [if_pos h]
    have hto : (Char.ofNat (c.toNat + 32)).toNat = c.toNat + 32 := by
      have hv : (c.toNat + 32).isValidChar := Or.inl (by omega)
      rw [Char.ofNat, dif_pos hv]
      rfl
    simp only [jsWhitespace, hto, decide_eq_decide]
    omega
  · rw [if_neg h]

theorem stripCI_isSome_iff : ∀ (pat cs : List Char),
    (stripCI pat cs).isSome = true ↔
      ∃ mid suf, cs = mid ++ suf ∧ List.Forall₂ charCIRel pat mid
  | [], cs =>
    ⟨fun _ => ⟨[], cs, rfl, List.Forall₂.nil⟩, fun _ => rfl⟩
  | p :: ps, [] => by
    constructor
    · intro h
      simp [stripCI] at h
    · rintro ⟨mid, suf, heq, hf⟩
      have hmid : mid = [] := by
        rcases mid with _ | ⟨m, ms⟩
        · rfl
        · simp at heq
      subst hmid
      cases hf
  | p :: ps, c :: cs => by
    by_cases h : charCI p c
    · simp only [stripCI, h, if_true]
      rw [stripCI_isSome_iff ps cs]
      constructor
      · rintro ⟨mid, suf, rfl, hf⟩
        exact ⟨c :: mid, suf, rfl, List.Forall₂.cons h hf⟩
      · rintro ⟨mid, suf, heq, hf⟩
        cases hf with
        | cons hpc hf' =>
          rename_i b l₂
          simp only [List.cons_append, List.cons.injEq] at heq
          exact ⟨l₂, suf, heq.2, hf'⟩
    · simp only [stripCI, h, Bool.false_eq_true, if_false, Option.isSome_none,
        false_iff, not_exists]
      intro mid suf hcon
      obtain ⟨heq, hf⟩ := hcon
      cases hf with
      | cons hpc hf' =>
        rename_i b l₂
        simp only [List.cons_append, List.cons.injEq] at heq
        exact h (by rwa [← heq.1] at hpc)

theorem containsCIList_iff : ∀ (pat cs : List Char),
    containsCIList pat cs = true ↔
      ∃ pre mid suf, cs = pre ++ mid ++ suf ∧ List.Forall₂ charCIRel pat mid
  | pat, [] => by
    rw [containsCIList, stripCI_isSome_iff]
    constructor
    · rintro ⟨mid, suf, heq, hf⟩
      exact ⟨[], mid, suf, by simpa using heq, hf⟩
    · rintro ⟨pre, mid, suf, heq, hf⟩
      rcases pre with _ | ⟨x, xs⟩
      · exact ⟨mid, suf, by simpa using heq, hf⟩
      · simp at heq
  | pat, c :: cs => by
    rw [containsCIList, Bool.or_eq_true, stripCI_isSome_iff, containsCIList_iff pat cs]
    constructor
    · rintro (⟨mid, suf, heq, hf⟩ | ⟨pre, mid, suf, heq, hf⟩)
      · exact ⟨[], mid, suf, by simpa using heq, hf⟩
      · exact ⟨c :: pre, mid, suf, by simp [heq], hf⟩
    · rintro ⟨pre, mid, suf, heq, hf⟩
      rcases pre with _ | ⟨x, xs⟩
      · exact Or.inl ⟨mid, suf, by simpa using heq, hf⟩
      · right
        refine ⟨xs, mid, suf, ?_, hf⟩
        simp only [List.cons_append, List.cons.injEq] at heq
        exact heq.2

theorem dropWhile_occurrence : ∀ (pre : List Char) (mid suf : List Char),
    mid ≠ [] → (∀ x ∈ mid, jsWhitespace x = false) →
    ∃ pre', List.dropWhile jsWhitespace (pre ++ mid ++ suf) = pre' ++ mid ++ suf
  | [], mid, suf, hne, hm => by
    rcases mid with _ | ⟨m, ms⟩
    · exact absurd rfl hne
    · refine ⟨[], ?_⟩
      simp [List.dropWhile_cons, hm m (by simp)]
  | x :: pre, mid, suf, hne, hm => by
    by_cases hx : jsWhitespace x
    · obtain ⟨pre', hpre'⟩ := dropWhile_occurrence pre mid suf hne hm
      refine ⟨pre', ?_⟩
      simpa [List.dropWhile_cons, hx] using hpre'
    · exact ⟨x :: pre, by simp [List.dropWhile_cons, hx]⟩

theorem jsTrimList_occurrence (pre mid suf : List Char) (hne : mid ≠ [])
    (hm : ∀ x ∈ mid, jsWhitespace x = false) :
    ∃ pre' suf', jsTrimList (pre ++ mid ++ suf) = pre' ++ mid ++ suf' := by
  obtain ⟨pre', hpre'⟩ := dropWhile_occurrence pre mid suf hne hm
  have hner : mid.reverse ≠ [] := by simpa using hne
  have hmr : ∀ x ∈ mid.reverse, jsWhitespace x = false := fun x hx =>
    hm x (List.mem_reverse.1 hx)
  obtain ⟨s', hs'⟩ := dropWhile_occurrence suf.reverse mid.reverse pre'.reverse hner hmr
  refine ⟨pre', s'.reverse, ?_⟩
  rw [jsTrimList, hpre', dropTrailingWs]
  have hrev : (pre' ++ mid ++ suf).reverse = suf.reverse ++ mid.reverse ++ pre'.reverse := by
    simp
  rw [hrev, hs']
  simp

theorem dropTrailingWs_append_takeWhile (l : List Char) :
    dropTrailingWs l ++ (List.takeWhile jsWhitespace l.reverse).reverse = l := by
  rw [dropTrailingWs, ← List.reverse_append, List.takeWhile_append_dropWhile,
    List.reverse_reverse]

theorem jsTrimList_decomp (cs : List Char) :
    ∃ a b, cs = a ++ jsTrimList cs ++ b := by
  refine ⟨List.takeWhile jsWhitespace cs,
          (List.takeWhile jsWhitespace (List.dropWhile jsWhitespace cs).reverse).reverse, ?_⟩
  conv_lhs => rw [← List.takeWhile_append_dropWhile jsWhitespace cs]
  rw [List.append_assoc]
  congr 1
  rw [jsTrimList]
  exact (dropTrailingWs_append_takeWhile (List.dropWhile jsWhitespace cs)).symm

theorem forall₂_mem_right {R : Char → Char → Prop} :
    ∀ {pat mid : List Char}, List.Forall₂ R pat mid →
      ∀ x ∈ mid, ∃ p ∈ pat, R p x := by
  intro pat mid hf
  induction hf with
  | nil => simp
  | cons hr hf ih =>
    intro x hx
    rcases List.mem_cons.1 hx with rfl | hx'
    · exact ⟨_, by simp, hr⟩
    · obtain ⟨p, hp, hpr⟩ := ih x hx'
      exact ⟨p, by simp [hp], hpr⟩

theorem children_char_not_ws :
    ∀ p ∈ "children".data, ∀ c, charCIRel p c → jsWhitespace c = false := by
  intro p hp c hci
  have hl : p.toLower = c.toLower := by simpa [charCIRel, charCI] using hci
  rw [← jsWhitespace_toLower c, ← hl]
  fin_cases hp <;> decide

/-- A case-insensitive occurrence of `children` survives `trim()` in both
directions. -/
theorem containsCI_children_jsTrim (s : String) :
    containsCI "children" (jsTrim s) = containsCI "children" s := by
  have hdata : (jsTrim s).data = jsTrimList s.data := rfl
  rcases hocc : containsCI "children" s with _ | _
  · rcases hocc2 : containsCI "children" (jsTrim s) with _ | _
    · rfl
    · exfalso
      rw [containsCI, hdata, containsCIList_iff] at hocc2
      obtain ⟨pre, mid, suf, heq, hf⟩ := hocc2
      obtain ⟨a, b, hab⟩ := jsTrimList_decomp s.data
      have : containsCI "children" s = true := by
        rw [containsCI, containsCIList_iff]
        exact ⟨a ++ pre, mid, suf ++ b, by rw [hab, heq]; simp, hf⟩
      rw [hocc] at this
      exact Bool.false_ne_true this
  · rw [containsCI, containsCIList_iff] at hocc
    obtain ⟨pre, mid, suf, heq, hf⟩ := hocc
    have hne : mid ≠ [] := by
      intro hcon
      subst hcon
      cases hf
    have hm : ∀ x ∈ mid, jsWhitespace x = false := by
      intro x hx
      obtain ⟨p, hp, hpr⟩ := forall₂_mem_right hf x hx
      exact children_char_not_ws p hp x hpr
    obtain ⟨pre', suf', htrim⟩ := jsTrimList_occurrence pre mid suf hne hm
    rw [containsCI, hdata, containsCIList_iff]
    exact ⟨pre', mid, suf', by rw [heq]; exact htrim, hf⟩

/-- C4: `classifyAudience` implements exactly the documented rule order —
adult-word prefix of the trimmed item type, else junior-word prefix, else
`children` contained (case-insensitively) in the item type or sequence,
else adult. -/
theorem c4_classifyAudience_rules (t s : String) :
    classifyAudience t s =
      (if startsWordCI "adult" (jsTrim t) then Audience.adult
       else if startsWordCI "junior" (jsTrim t) then Audience.junior
       else if containsCI "children" t || containsCI "children" s then Audience.junior
       else Audience.adult) := by
  simp only [classifyAudience]
  rw [containsCI_children_jsTrim t]

/-- C10 (implicit): the adult-prefix rule takes strict precedence over
the children-containment rule — an item type that (trimmed) starts with
the word `adult` is classified adult no matter what the sequence or the
rest of the item type contains. -/
theorem c10_adult_prefix_precedence (t s : String)
    (h : startsWordCI "adult" (jsTrim t) = true) :
    classifyAudience t s = .adult := by
  simp only [classifyAudience, h, if_true]

/-- Witness for C10: an adult item type whose remainder and sequence both
contain `children` is still classified adult. -/
theorem c10_witness :
    classifyAudience "Adult children" "children stories" = .adult :=
  c10_adult_prefix_precedence "Adult children" "children stories" (by decide)

/-! ## The type-bucket claims -/

theorem afterAudienceGap_G (cs : List Char) : afterAudienceGap ('G' :: cs) = none := by
  have h1 : jsWhitespace 'G' = false := by decide
  have h2 : charCI 'a' 'G' = false := by decide
  have h3 : charCI 'j' 'G' = false := by decide
  simp [afterAudienceGap, List.dropWhile_cons, h1, stripCI, h2, h3]

theorem dataGraphicFiction (suf : String) : ("Graphic Fiction" ++ suf).data =
    'G' :: 'r' :: 'a' :: 'p' :: 'h' :: 'i' :: 'c' :: ' ' ::
    'F' :: 'i' :: 'c' :: 't' :: 'i' :: 'o' :: 'n' :: suf.data := by
  rw [String.data_append]
  rfl

theorem startsAudienceNonFiction_graphic (suf : String) :
    startsAudienceNonFiction ("Graphic Fiction" ++ suf) = false := by
  simp [startsAudienceNonFiction, dataGraphicFiction, afterAudienceGap_G]

theorem startsAudienceFiction_graphic (suf : String) :
    startsAudienceFiction ("Graphic Fiction" ++ suf) = false := by
  simp [startsAudienceFiction, dataGraphicFiction, afterAudienceGap_G]

theorem containsGraphicFiction_prefix (suf : String) :
    containsGraphicFiction ("Graphic Fiction" ++ suf) = true := by
  rw [containsGraphicFiction, dataGraphicFiction, containsGraphicFictionAux,
    Bool.or_eq_true]
  left
  have hstrip : stripCI "graphic".data
      ('G' :: 'r' :: 'a' :: 'p' :: 'h' :: 'i' :: 'c' :: ' ' ::
       'F' :: 'i' :: 'c' :: 't' :: 'i' :: 'o' :: 'n' :: suf.data) =
      some (' ' :: 'F' :: 'i' :: 'c' :: 't' :: 'i' :: 'o' :: 'n' :: suf.data) := rfl
  rw [hstrip]
  have hdrop : List.dropWhile jsWhitespace
      (' ' :: 'F' :: 'i' :: 'c' :: 't' :: 'i' :: 'o' :: 'n' :: suf.data) =
      'F' :: 'i' :: 'c' :: 't' :: 'i' :: 'o' :: 'n' :: suf.data := rfl
  have hfict : stripCI "fiction".data
      ('F' :: 'i' :: 'c' :: 't' :: 'i' :: 'o' :: 'n' :: suf.data) = some suf.data := rfl
  simp only [hdrop, hfict, Option.isSome_some, Bool.and_eq_true, decide_eq_true_eq,
    List.length_cons, and_true]
  omega

theorem itemTypeBucket_graphic (suf : String)
    (hdvd : containsWordDvd ("Graphic Fiction" ++ suf) = false) :
    itemTypeBucket ("Graphic Fiction" ++ suf) = 2 := by
  simp [itemTypeBucket, hdvd, startsAudienceNonFiction_graphic,
    startsAudienceFiction_graphic, containsGraphicFiction_prefix]

theorem compareEntries_neg_of_bucket_lt (a b : Entry)
    (h : itemTypeBucket a.itemType < itemTypeBucket b.itemType) :
    compareEntries a b < 0 := by
  rw [compareEntries_eq_thenInt, thenInt_neg_iff]
  left
  simp only [compareTypeBucket]
  omega

/-- C5: the comparator's primary key.  A `dvd` word anywhere forces
bucket 3 regardless of the other rules; without it the bucket is 0 for
`adult|junior non-fiction` prefixes, 1 for `adult|junior fiction`
prefixes, 2 for types containing `graphic fiction`, and 3 otherwise;
consequently, within one audience, `"Adult Non-Fiction"` sorts before
`"Adult Fiction"`, which sorts before any `"Graphic Fiction ..."` type
(without `dvd`, which by the precedence rule would move it to bucket 3),
which sorts before `"Adult DVD"`. -/
theorem c5_itemTypeBucket_and_order :
    (∀ t, containsWordDvd t = true → itemTypeBucket t = 3) ∧
    (∀ t, containsWordDvd t = false → itemTypeBucket t =
      (if startsAudienceNonFiction t then 0
       else if startsAudienceFiction t then 1
       else if containsGraphicFiction t then 2
       else 3)) ∧
    (∀ a b c d : Entry, a.itemType = "Adult Non-Fiction" → b.itemType = "Adult Fiction" →
      (∃ suffix, c.itemType = "Graphic Fiction" ++ suffix) →
      containsWordDvd c.itemType = false → d.itemType = "Adult DVD" →
      compareEntries a b < 0 ∧ compareEntries b c < 0 ∧ compareEntries c d < 0) := by
  refine ⟨?_, ?_, ?_⟩
  · intro t h
    simp [itemTypeBucket, h]
  · intro t h
    simp [itemTypeBucket, h]
  · intro a b c d ha hb hc hcdvd hd
    obtain ⟨suffix, hsuf⟩ := hc
    have hbc : itemTypeBucket c.itemType = 2 := by
      rw [hsuf]
      exact itemTypeBucket_graphic suffix (hsuf ▸ hcdvd)
    have hba : itemTypeBucket a.itemType = 0 := by rw [ha]; decide
    have hbb : itemTypeBucket b.itemType = 1 := by rw [hb]; decide
    have hbd : itemTypeBucket d.itemType = 3 := by rw [hd]; decide
    exact ⟨compareEntries_neg_of_bucket_lt a b (by omega),
           compareEntries_neg_of_bucket_lt b c (by omega),
           compareEntries_neg_of_bucket_lt c d (by omega)⟩

/-- Witness for C5 at four concrete entries. -/
theorem c5_witness :
    compareEntries ⟨[], "1", "", "", "Adult Non-Fiction", "", .adult, 0⟩
        ⟨[], "2", "", "", "Adult Fiction", "", .adult, 1⟩ < 0 ∧
    compareEntries ⟨[], "2", "", "", "Adult Fiction", "", .adult, 1⟩
        ⟨[], "3", "", "", "Graphic Fiction Teen", "", .adult, 2⟩ < 0 ∧
    compareEntries ⟨[], "3", "", "", "Graphic Fiction Teen", "", .adult, 2⟩
        ⟨[], "4", "", "", "Adult DVD", "", .adult, 3⟩ < 0 :=
  c5_itemTypeBucket_and_order.2.2
    ⟨[], "1", "", "", "Adult Non-Fiction", "", .adult, 0⟩
    ⟨[], "2", "", "", "Adult Fiction", "", .adult, 1⟩
    ⟨[], "3", "", "", "Graphic Fiction Teen", "", .adult, 2⟩
    ⟨[], "4", "", "", "Adult DVD", "", .adult, 3⟩
    rfl rfl ⟨" Teen", by decide⟩ (by decide) rfl

/-! ## The adult-fiction shelving remap -/

theorem compareEntries_sequence_congr (e : Entry) (X Y : String) (b : Entry)
    (h : normalizeSequenceForSorting e.itemType X = normalizeSequenceForSorting e.itemType Y) :
    compareEntries { e with sequence := X } b = compareEntries { e with sequence := Y } b ∧
    compareEntries b { e with sequence := X } = compareEntries b { e with sequence := Y } := by
  constructor <;> simp only [compareEntries_eq_thenInt, h]

/-- C6: for an item type that is exactly `adult fiction` (up to case and
surrounding whitespace) the sorting/grouping sequence is remapped —
`thriller` to `Crime`, the five general-fiction genres to the empty
string, everything else passed through — while other item types keep the
raw sequence; consequently an adult-fiction entry with sequence
`Thriller` compares and groups exactly like one with `Crime`, and one
with `Romance` exactly like one with a blank sequence. -/
theorem c6_sequence_remap :
    (∀ t s, jsLower (jsTrim t) ≠ "adult fiction" → normalizeSequenceForSorting t s = s) ∧
    (∀ t s, jsLower (jsTrim t) = "adult fiction" → jsLower (jsTrim s) = "thriller" →
      normalizeSequenceForSorting t s = "Crime") ∧
    (∀ t s, jsLower (jsTrim t) = "adult fiction" →
      (jsLower (jsTrim s) = "historical" ∨ jsLower (jsTrim s) = "romance" ∨
       jsLower (jsTrim s) = "saga" ∨ jsLower (jsTrim s) = "horror" ∨
       jsLower (jsTrim s) = "western") →
      normalizeSequenceForSorting t s = "") ∧
    (∀ t s, jsLower (jsTrim t) = "adult fiction" →
      jsLower (jsTrim s) ∉ (["thriller", "historical", "romance", "saga", "horror",
        "western"] : List String) →
      normalizeSequenceForSorting t s = s) ∧
    (∀ e b : Entry, jsLower (jsTrim e.itemType) = "adult fiction" →
      compareEntries { e with sequence := "Thriller" } b =
          compareEntries { e with sequence := "Crime" } b ∧
        compareEntries b { e with sequence := "Thriller" } =
          compareEntries b { e with sequence := "Crime" } ∧
        groupKey { e with sequence := "Thriller" } = groupKey { e with sequence := "Crime" } ∧
        compareEntries { e with sequence := "Romance" } b =
          compareEntries { e with sequence := "" } b ∧
        compareEntries b { e with sequence := "Romance" } =
          compareEntries b { e with sequence := "" } ∧
        groupKey { e with sequence := "Romance" } = groupKey { e with sequence := "" }) := by
  refine ⟨?_, ?_, ?_, ?_, ?_⟩
  · intro t s h
    simp [normalizeSequenceForSorting, h]
  · intro t s ht hs
    simp [normalizeSequenceForSorting, ht, hs]
  · intro t s ht hs
    rcases hs with hs | hs | hs | hs | hs <;> simp [normalizeSequenceForSorting, ht, hs]
  · intro t s ht hs
    simp only [List.mem_cons, List.not_mem_nil, or_false, not_or] at hs
    obtain ⟨h1, h2, h3, h4, h5, h6⟩ := hs
    simp [normalizeSequenceForSorting, ht, h1, h2, h3, h4, h5, h6]
  · intro e b hAF
    have hThr : normalizeSequenceForSorting e.itemType "Thriller" = "Crime" := by
      have hx : jsLower (jsTrim "Thriller") = "thriller" := by decide
      simp [normalizeSequenceForSorting, hAF, hx]
    have hCri : normalizeSequenceForSorting e.itemType "Crime" = "Crime" := by
      have hx : jsLower (jsTrim "Crime") = "crime" := by decide
      simp [normalizeSequenceForSorting, hAF, hx]
    have hRom : normalizeSequenceForSorting e.itemType "Romance" = "" := by
      have hx : jsLower (jsTrim "Romance") = "romance" := by decide
      simp [normalizeSequenceForSorting, hAF, hx]
    have hBlk : normalizeSequenceForSorting e.itemType "" = "" := by
      have hx : jsLower (jsTrim "") = "" := by decide
      simp [normalizeSequenceForSorting, hAF, hx]
    have hTC := hThr.trans hCri.symm
    have hRB := hRom.trans hBlk.symm
    obtain ⟨hTC1, hTC2⟩ := compareEntries_sequence_congr e "Thriller" "Crime" b hTC
    obtain ⟨hRB1, hRB2⟩ := compareEntries_sequence_congr e "Romance" "" b hRB
    exact ⟨hTC1, hTC2, by simp [groupKey, hTC], hRB1, hRB2, by simp [groupKey, hRB]⟩

/-- Witness for C6 at a concrete adult-fiction entry (only the count
equalities with a fixed comparison partner are displayed). -/
theorem c6_witness :
    compareEntries
        { rawLines := [], barcode := "301", shelfmark := "F", author := "A",
          itemType := "Adult Fiction", sequence := "Thriller", audience := .adult,
          originalIndex := 0 } ⟨[], "302", "G", "B", "Junior Fiction", "", .junior, 1⟩ =
      compareEntries
        { rawLines := [], barcode := "301", shelfmark := "F", author := "A",
          itemType := "Adult Fiction", sequence := "Crime", audience := .adult,
          originalIndex := 0 } ⟨[], "302", "G", "B", "Junior Fiction", "", .junior, 1⟩ :=
  (c6_sequence_remap.2.2.2.2
    ⟨[], "301", "F", "A", "Adult Fiction", "ignored", .adult, 0⟩
    ⟨[], "302", "G", "B", "Junior Fiction", "", .junior, 1⟩ (by decide)).1

/-! ## Continuation headings follow every page break -/

theorem expectedContinuation_ne_nil (w : RenderLine → List RenderLine) (ht : String) :
    expectedContinuation w ht ≠ [] := by
  simp [expectedContinuation]

theorem placedPrefixMatches_append :
    ∀ (exp : List RenderLine) (evs more : List PdfEvent),
      placedPrefixMatches exp evs = true → placedPrefixMatches exp (evs ++ more) = true
  | [], _, _, _ => rfl
  | _ :: _, [], _, h => by simp [placedPrefixMatches] at h
  | l :: ls, e :: es, more, h => by
    rcases e with _ | ⟨p, c, l2⟩ | _ | _ | _ <;>
      simp only [placedPrefixMatches, Bool.and_eq_true, List.cons_append] at h ⊢
    · exact h
    · exact ⟨h.1, placedPrefixMatches_append ls es more h.2⟩
    · exact h
    · exact h
    · exact h

theorem placedPrefixMatches_self :
    ∀ (exp : List RenderLine) (p c : Nat) (tail : List PdfEvent),
      placedPrefixMatches exp (exp.map (.placedLine p c) ++ tail) = true
  | [], _, _, _ => rfl
  | l :: ls, p, c, tail => by
    simp only [List.map_cons, List.cons_append, placedPrefixMatches, Bool.and_eq_true]
    exact ⟨by simp, placedPrefixMatches_self ls p c tail⟩

theorem placedPrefixMatches_ne_nil {exp : List RenderLine} {evs : List PdfEvent}
    (hne : exp ≠ []) (h : placedPrefixMatches exp evs = true) : evs ≠ [] := by
  rcases exp with _ | ⟨l, ls⟩
  · exact absurd rfl hne
  · rcases evs with _ | ⟨e, es⟩
    · simp [placedPrefixMatches] at h
    · simp

theorem contHeadingCheck_of_no_bad_pageBreak (w : RenderLine → List RenderLine) :
    ∀ evs : List PdfEvent,
      (∀ p ht, PdfEvent.pageBreak p false ht ∈ evs → False) →
      contHeadingCheck w false evs = true
  | [], _ => rfl
  | e :: rest, h => by
    have hrest := contHeadingCheck_of_no_bad_pageBreak w rest
      (fun p ht hm => h p ht (List.mem_cons_of_mem e hm))
    rcases e with _ | _ | ⟨p, nc, hh, ht⟩ | ⟨p, hh, ht⟩ | _ <;>
      simp only [contHeadingCheck, Bool.and_eq_true] <;>
      refine ⟨?_, hrest⟩
    · trivial
    · trivial
    · simp
    · rcases hh with _ | _
      · exact absurd (List.mem_cons_self _ _) (fun hc => h p ht hc)
      · simp
    · trivial

theorem contHeadingCheck_append (w : RenderLine → List RenderLine) :
    ∀ evs1 evs2 : List PdfEvent,
      contHeadingCheck w false evs1 = true → contHeadingCheck w false evs2 = true →
      contHeadingCheck w false (evs1 ++ evs2) = true
  | [], evs2, _, h2 => h2
  | e :: rest, evs2, h1, h2 => by
    simp only [contHeadingCheck, Bool.and_eq_true] at h1
    have hrest := contHeadingCheck_append w rest evs2 h1.2 h2
    rcases e with _ | _ | ⟨p, nc, hh, ht⟩ | ⟨p, hh, ht⟩ | _ <;>
      simp only [List.cons_append, contHeadingCheck, Bool.and_eq_true] <;>
      refine ⟨?_, hrest⟩
    · trivial
    · trivial
    · simp
    · rcases hh with _ | _
      · have hmatch : placedPrefixMatches (expectedContinuation w ht)
            (rest.dropWhile isTitleEvent) = true := by
          simpa using h1.1
        have hne : rest.dropWhile isTitleEvent ≠ [] :=
          placedPrefixMatches_ne_nil (expectedContinuation_ne_nil w ht) hmatch
        have hda : List.dropWhile isTitleEvent (rest ++ evs2) =
            List.dropWhile isTitleEvent rest ++ evs2 := by
          rw [List.dropWhile_append, if_neg (by simpa [List.isEmpty_iff] using hne)]
        simpa [hda] using placedPrefixMatches_append _ _ evs2 hmatch
      · simp
    · trivial

theorem titleEvents_isTitle (cfg : PdfConfig) (title : String) (page : Nat) :
    ∀ e ∈ titleEvents cfg title page, isTitleEvent e = true := by
  intro e he
  rw [titleEvents, List.mem_map] at he
  obtain ⟨l, -, rfl⟩ := he
  rfl

theorem contHeadingCheck_pageBreak_chunk (w : RenderLine → List RenderLine)
    (p pc c : Nat) (ht : String) (hh : Bool) (ts : List PdfEvent)
    (hts : ∀ e ∈ ts, isTitleEvent e = true) :
    contHeadingCheck w false
      (PdfEvent.pageBreak p hh ht ::
        (ts ++ (expectedContinuation w ht).map (.placedLine pc c))) = true := by
  have hnobad : ∀ p' ht', PdfEvent.pageBreak p' false ht' ∈
      ts ++ (expectedContinuation w ht).map (.placedLine pc c) → False := by
    intro p' ht' hm
    rcases List.mem_append.1 hm with hm | hm
    · have := hts _ hm
      simp [isTitleEvent] at this
    · rw [List.mem_map] at hm
      obtain ⟨l, -, hl⟩ := hm
      simp at hl
  simp only [contHeadingCheck, Bool.and_eq_true]
  refine ⟨?_, contHeadingCheck_of_no_bad_pageBreak w _ hnobad⟩
  rcases hh with _ | _
  · have hdts : List.dropWhile isTitleEvent ts = [] := by
      rw [List.dropWhile_eq_nil_iff]
      exact fun x hx => hts x hx
    have hdrop : List.dropWhile isTitleEvent
        (ts ++ (expectedContinuation w ht).map (.placedLine pc c)) =
        (expectedContinuation w ht).map (.placedLine pc c) := by
      rw [List.dropWhile_append, if_pos (by simp [hdts])]
      rcases hexp : expectedContinuation w ht with _ | ⟨l, ls⟩
      · exact absurd hexp (expectedContinuation_ne_nil w ht)
      · simp [List.dropWhile_cons, isTitleEvent]
    have := placedPrefixMatches_self (expectedContinuation w ht) pc c []
    rw [List.append_nil] at this
    simp [hdrop, this]
  · simp

theorem advanceWithContinuation_check (cfg : PdfConfig) (title : String) (hasH : Bool)
    (htext : String) (st : PdfState) (hab : st.aborted = none)
    (h : contHeadingCheck cfg.wrapContent false st.events = true) :
    contHeadingCheck cfg.wrapContent false
      (advanceWithContinuation cfg title hasH htext st).events = true := by
  unfold advanceWithContinuation advanceColumnOrPage
  by_cases hcol : st.columnIndex + 1 < effectiveColumns cfg
  · simp only [hcol, if_pos, hab]
    rw [if_neg (by simp), if_neg (by simp)]
    refine contHeadingCheck_append _ _ _ h (contHeadingCheck_of_no_bad_pageBreak _ _ ?_)
    intro p ht hm
    simp at hm
  · by_cases hcap : MAX_PDF_PAGES ≤ st.page
    · simp only [hcol, hcap, if_neg, if_pos, if_false, if_true]
      rw [if_pos (by simp)]
      exact h
    · simp only [hcol, hcap, if_neg, if_pos, if_false, if_true, hab]
      rw [if_neg (by simp)]
      rcases hasH with _ | _
      · rw [if_pos (by simp)]
        unfold drawContinuedSectionHeading
        simp only [List.append_assoc, List.singleton_append]
        refine contHeadingCheck_append _ _ _ h ?_
        exact contHeadingCheck_pageBreak_chunk cfg.wrapContent (st.page + 1) (st.page + 1) 0
          htext false (titleEvents cfg title (st.page + 1)) (titleEvents_isTitle cfg title _)
      · rw [if_neg (by simp)]
        simp only [List.append_assoc, List.singleton_append]
        refine contHeadingCheck_append _ _ _ h (contHeadingCheck_of_no_bad_pageBreak _ _ ?_)
        intro p ht hm
        rcases List.mem_cons.1 hm with hm | hm
        · simp at hm
        · have := titleEvents_isTitle cfg title (st.page + 1) _ hm
          simp [isTitleEvent] at this

theorem drawOneLine_check (cfg : PdfConfig) (line : RenderLine) (st : PdfState)
    (h : contHeadingCheck cfg.wrapContent false st.events = true) :
    contHeadingCheck cfg.wrapContent false (drawOneLine cfg line st).events = true := by
  unfold drawOneLine
  refine contHeadingCheck_append _ _ _ h (contHeadingCheck_of_no_bad_pageBreak _ _ ?_)
  intro p ht hm
  simp at hm

theorem placeOversizedLines_check (cfg : PdfConfig) (title : String) (hasH : Bool)
    (htext : String) :
    ∀ (lines : List RenderLine) (st : PdfState),
      contHeadingCheck cfg.wrapContent false st.events = true →
      contHeadingCheck cfg.wrapContent false
        (placeOversizedLines cfg title hasH htext lines st).events = true
  | [], _, h => h
  | line :: rest, st, h => by
    rw [placeOversizedLines]
    by_cases habs : st.aborted.isSome
    · rw [if_pos habs]
      exact h
    · rw [if_neg habs]
      have hab : st.aborted = none := Option.not_isSome_iff_eq_none.1 habs
      by_cases hov : usableHeightOf cfg < st.y + cfg.lineHeight
      · rw [if_pos hov]
        have h1 := advanceWithContinuation_check cfg title hasH htext st hab h
        by_cases hab1 : (advanceWithContinuation cfg title hasH htext st).aborted.isSome
        · rw [if_pos hab1]
          exact h1
        · rw [if_neg hab1]
          exact placeOversizedLines_check cfg title hasH htext rest _
            (drawOneLine_check cfg line _ h1)
      · rw [if_neg hov]
        rw [if_neg (by simp [hab])]
        exact placeOversizedLines_check cfg title hasH htext rest _
          (drawOneLine_check cfg line _ h)

theorem placeBlock_check (cfg : PdfConfig) (title : String) (block : RenderBlock)
    (st : PdfState) (h : contHeadingCheck cfg.wrapContent false st.events = true) :
    contHeadingCheck cfg.wrapContent false (placeBlock cfg title block st).events = true := by
  rw [placeBlock]
  by_cases habs : st.aborted.isSome
  · rw [if_pos habs]
    exact h
  · rw [if_neg habs]
    have hab : st.aborted = none := Option.not_isSome_iff_eq_none.1 habs
    by_cases hov : usableHeightOf cfg <
        (linesToDrawFor cfg block st.y).length * cfg.lineHeight
    · rw [if_pos hov]
      exact placeOversizedLines_check cfg title block.hasHeading _ _ _ h
    · rw [if_neg hov]
      by_cases hfit : usableHeightOf cfg + fitSlackOf cfg <
          (linesToDrawFor cfg block st.y).length * cfg.lineHeight + st.y
      · rw [if_pos hfit]
        have h1 := advanceWithContinuation_check cfg title block.hasHeading
          (lineText block.sectionHeading) st hab h
        by_cases hab1 : (advanceWithContinuation cfg title block.hasHeading
            (lineText block.sectionHeading) st).aborted.isSome
        · rw [if_pos hab1]
          exact h1
        · rw [if_neg hab1]
          refine contHeadingCheck_append _ _ _ h1 (contHeadingCheck_of_no_bad_pageBreak _ _ ?_)
          intro p ht hm
          rw [List.mem_map] at hm
          obtain ⟨l, -, hl⟩ := hm
          simp at hl
      · rw [if_neg hfit]
        rw [if_neg habs]
        refine contHeadingCheck_append _ _ _ h (contHeadingCheck_of_no_bad_pageBreak _ _ ?_)
        intro p ht hm
        rw [List.mem_map] at hm
        obtain ⟨l, -, hl⟩ := hm
        simp at hl

theorem renderStateOf_check_aux (cfg : PdfConfig) (title : String) :
    ∀ (blocks : List RenderBlock) (st : PdfState),
      contHeadingCheck cfg.wrapContent false st.events = true →
      contHeadingCheck cfg.wrapContent false
        (blocks.foldl (fun st block => placeBlock cfg title block st) st).events = true
  | [], _, h => h
  | block :: rest, st, h => by
    rw [List.foldl_cons]
    exact renderStateOf_check_aux cfg title rest _ (placeBlock_check cfg title block st h)

/-- C8 (amended): whenever placement advances to a *new page* while
placing a block that does not itself carry a fresh section heading, the
wrapped `"<heading> (cont.)"` lines (plus their blank spacer) are laid
out at the top of the new page, directly after the page title, before
any of that block's content resumes.  (Advances to the second column of
the same page re-emit nothing — see the counterexample to the original
claim.) -/
theorem c8_continuation_heading_on_page_breaks (cfg : PdfConfig) (docModel : RenderDocument) :
    contHeadingCheck cfg.wrapContent false (renderStateOf cfg docModel).events = true := by
  rw [renderStateOf]
  refine renderStateOf_check_aux cfg docModel.title _ _ ?_
  rw [initialPdfState]
  exact contHeadingCheck_of_no_bad_pageBreak _ _ (by
    intro p ht hm
    have := titleEvents_isTitle cfg docModel.title 1 _ hm
    simp [isTitleEvent] at this)

/-- Counterexample to C8 as stated: when the headingless second block is
pushed to the *next column* of the same page, no `"H (cont.)"` line is
emitted before its content resumes, so the claim's "next column or new
page" requirement fails on this run (the checker that demands the
continuation heading after column breaks as well as page breaks returns
`false`). -/
theorem c8_counterexample :
    contHeadingCheck c8CexConfig.wrapContent true
      (renderStateOf c8CexConfig c8CexDoc).events = false := by
  rfl

/-! ## The two hard rendering caps -/

theorem advanceWithContinuation_invariants (cfg : PdfConfig) (title : String)
    (hasH : Bool) (htext : String) (st : PdfState) :
    ((advanceWithContinuation cfg title hasH htext st).aborted = st.aborted ∨
      (advanceWithContinuation cfg title hasH htext st).aborted = some pageCapMessage) ∧
    ((advanceWithContinuation cfg title hasH htext st).page = st.page ∨
      ((advanceWithContinuation cfg title hasH htext st).page = st.page + 1 ∧
        st.page < MAX_PDF_PAGES)) := by
  unfold advanceWithContinuation advanceColumnOrPage
  by_cases hcol : st.columnIndex + 1 < effectiveColumns cfg
  · simp only [hcol, if_pos]
    by_cases habs : st.aborted.isSome
    · rw [if_pos (by simpa using habs)]
      exact ⟨Or.inl rfl, Or.inl rfl⟩
    · rw [if_neg (by simpa using habs), if_neg (by simp)]
      exact ⟨Or.inl rfl, Or.inl rfl⟩
  · by_cases hcap : MAX_PDF_PAGES ≤ st.page
    · simp only [hcol, hcap, if_neg, if_pos, if_false, if_true]
      rw [if_pos (by simp)]
      exact ⟨Or.inr rfl, Or.inl rfl⟩
    · simp only [hcol, hcap, if_neg, if_pos, if_false, if_true]
      by_cases habs : st.aborted.isSome
      · rw [if_pos (by simpa using habs)]
        exact ⟨Or.inl rfl, Or.inr ⟨rfl, by omega⟩⟩
      · rw [if_neg (by simpa using habs)]
        rcases hasH with _ | _
        · rw [if_pos (by simp)]
          exact ⟨Or.inl rfl, Or.inr ⟨rfl, by omega⟩⟩
        · rw [if_neg (by simp)]
          exact ⟨Or.inl rfl, Or.inr ⟨rfl, by omega⟩⟩

theorem placeOversizedLines_invariants (cfg : PdfConfig) (title : String) (hasH : Bool)
    (htext : String) :
    ∀ (lines : List RenderLine) (st : PdfState),
      (st.aborted = none ∨ st.aborted = some pageCapMessage) → st.page ≤ MAX_PDF_PAGES →
      ((placeOversizedLines cfg title hasH htext lines st).aborted = none ∨
        (placeOversizedLines cfg title hasH htext lines st).aborted = some pageCapMessage) ∧
      (placeOversizedLines cfg title hasH htext lines st).page ≤ MAX_PDF_PAGES
  | [], _, ha, hp => ⟨ha, hp⟩
  | line :: rest, st, ha, hp => by
    rw [placeOversizedLines]
    by_cases habs : st.aborted.isSome
    · rw [if_pos habs]
      exact ⟨ha, hp⟩
    · rw [if_neg habs]
      by_cases hov : usableHeightOf cfg < st.y + cfg.lineHeight
      · rw [if_pos hov]
        obtain ⟨hia, hip⟩ := advanceWithContinuation_invariants cfg title hasH htext st
        have ha1 : (advanceWithContinuation cfg title hasH htext st).aborted = none ∨
            (advanceWithContinuation cfg title hasH htext st).aborted = some pageCapMessage := by
          rcases hia with hia | hia
          · rw [hia]
            exact ha
          · exact Or.inr hia
        have hp1 : (advanceWithContinuation cfg title hasH htext st).page ≤ MAX_PDF_PAGES := by
          rcases hip with hip | ⟨hip, hlt⟩
          · omega
          · omega
        by_cases hab1 : (advanceWithContinuation cfg title hasH htext st).aborted.isSome
        · rw [if_pos hab1]
          exact ⟨ha1, hp1⟩
        · rw [if_neg hab1]
          exact placeOversizedLines_invariants cfg title hasH htext rest _ ha1 hp1
      · rw [if_neg hov, if_neg habs]
        exact placeOversizedLines_invariants cfg title hasH htext rest _ ha hp

theorem placeBlock_invariants (cfg : PdfConfig) (title : String) (block : RenderBlock)
    (st : PdfState)
    (ha : st.aborted = none ∨ st.aborted = some pageCapMessage)
    (hp : st.page ≤ MAX_PDF_PAGES) :
    ((placeBlock cfg title block st).aborted = none ∨
      (placeBlock cfg title block st).aborted = some pageCapMessage) ∧
    (placeBlock cfg title block st).page ≤ MAX_PDF_PAGES := by
  rw [placeBlock]
  by_cases habs : st.aborted.isSome
  · rw [if_pos habs]
    exact ⟨ha, hp⟩
  · rw [if_neg habs]
    by_cases hov : usableHeightOf cfg < (linesToDrawFor cfg block st.y).length * cfg.lineHeight
    · rw [if_pos hov]
      exact placeOversizedLines_invariants cfg title block.hasHeading _ _ st ha hp
    · rw [if_neg hov]
      by_cases hfit : usableHeightOf cfg + fitSlackOf cfg <
          (linesToDrawFor cfg block st.y).length * cfg.lineHeight + st.y
      · rw [if_pos hfit]
        obtain ⟨hia, hip⟩ := advanceWithContinuation_invariants cfg title block.hasHeading
          (lineText block.sectionHeading) st
        have ha1 : (advanceWithContinuation cfg title block.hasHeading
              (lineText block.sectionHeading) st).aborted = none ∨
            (advanceWithContinuation cfg title block.hasHeading
              (lineText block.sectionHeading) st).aborted = some pageCapMessage := by
          rcases hia with hia | hia
          · rw [hia]
            exact ha
          · exact Or.inr hia
        have hp1 : (advanceWithContinuation cfg title block.hasHeading
            (lineText block.sectionHeading) st).page ≤ MAX_PDF_PAGES := by
          rcases hip with hip | ⟨hip, hlt⟩ <;> omega
        by_cases hab1 : (advanceWithContinuation cfg title block.hasHeading
            (lineText block.sectionHeading) st).aborted.isSome
        · rw [if_pos hab1]
          exact ⟨ha1, hp1⟩
        · rw [if_neg hab1]
          exact ⟨ha1, hp1⟩
      · rw [if_neg hfit, if_neg habs]
        exact ⟨ha, hp⟩

theorem renderStateOf_invariants_aux (cfg : PdfConfig) (title : String) :
    ∀ (blocks : List RenderBlock) (st : PdfState),
      (st.aborted = none ∨ st.aborted = some pageCapMessage) → st.page ≤ MAX_PDF_PAGES →
      ((blocks.foldl (fun st block => placeBlock cfg title block st) st).aborted = none ∨
        (blocks.foldl (fun st block => placeBlock cfg title block st) st).aborted =
          some pageCapMessage) ∧
      (blocks.foldl (fun st block => placeBlock cfg title block st) st).page ≤ MAX_PDF_PAGES
  | [], _, ha, hp => ⟨ha, hp⟩
  | block :: rest, st, ha, hp => by
    rw [List.foldl_cons]
    obtain ⟨ha1, hp1⟩ := placeBlock_invariants cfg title block st ha hp
    exact renderStateOf_invariants_aux cfg title rest _ ha1 hp1

theorem renderStateOf_invariants (cfg : PdfConfig) (docModel : RenderDocument) :
    ((renderStateOf cfg docModel).aborted = none ∨
      (renderStateOf cfg docModel).aborted = some pageCapMessage) ∧
    (renderStateOf cfg docModel).page ≤ MAX_PDF_PAGES := by
  rw [renderStateOf]
  exact renderStateOf_invariants_aux cfg docModel.title _ _ (Or.inl rfl)
    (by simp [initialPdfState, MAX_PDF_PAGES])

/-- C9 (amended): the wrapped-line cap is checked before any placement —
strictly more than 12,000 wrapped lines aborts immediately with the
message quoting the `12,000` limit, while exactly 12,000 always passes
the line check (any abort of such a run can only be the page-cap
message, which quotes `500`); the page counter never exceeds 500, and an
advance requested at page 500 aborts in place, emitting nothing; an
aborted run returns `Except.error`, i.e. no file is saved. -/
theorem c9_render_caps :
    (∀ (cfg : PdfConfig) (docModel : RenderDocument),
      MAX_RENDER_LINES < totalWrappedLines cfg docModel →
      downloadPdf cfg docModel = .error (lineCapMessage (totalWrappedLines cfg docModel))) ∧
    (∀ n : Nat, "12,000".data <:+: (lineCapMessage n).data) ∧
    (∀ (cfg : PdfConfig) (docModel : RenderDocument) (m : String),
      totalWrappedLines cfg docModel = MAX_RENDER_LINES →
      downloadPdf cfg docModel = .error m → m = pageCapMessage) ∧
    ("500".data <:+: pageCapMessage.data) ∧
    (∀ (cfg : PdfConfig) (docModel : RenderDocument),
      (renderStateOf cfg docModel).page ≤ MAX_PDF_PAGES) ∧
    (∀ (cfg : PdfConfig) (title : String) (hasHeading : Bool) (headingText : String)
        (st : PdfState),
      ¬(st.columnIndex + 1 < effectiveColumns cfg) → MAX_PDF_PAGES ≤ st.page →
      (advanceColumnOrPage cfg title hasHeading headingText st).1.aborted =
          some pageCapMessage ∧
        (advanceColumnOrPage cfg title hasHeading headingText st).1.events = st.events) := by
  refine ⟨?_, ?_, ?_, ?_, ?_, ?_⟩
  · intro cfg docModel h
    rw [downloadPdf, if_pos h]
  · intro n
    have hg : groupDigits MAX_RENDER_LINES = "12,000" := by decide
    refine ⟨("Output is too large to render safely (" ++ groupDigits n ++
      " lines). Maximum allowed is ").data,
      " lines. Please split the list into smaller batches.".data, ?_⟩
    rw [lineCapMessage, hg]
    simp [String.data_append]
  · intro cfg docModel m htot hdl
    rw [downloadPdf, if_neg (by omega)] at hdl
    simp only [] at hdl
    obtain ⟨hia, -⟩ := renderStateOf_invariants cfg docModel
    rcases hia with hia | hia
    · rw [hia] at hdl
      simp at hdl
    · rw [hia] at hdl
      simpa using hdl.symm
  · exact ⟨"Output is too large to render safely (".data,
      " pages limit). Please split the list into smaller batches.".data, by decide⟩
  · intro cfg docModel
    exact (renderStateOf_invariants cfg docModel).2
  · intro cfg title hasHeading headingText st hcol hcap
    rw [advanceColumnOrPage]
    rw [if_neg hcol, if_pos hcap]
    exact ⟨rfl, rfl⟩

/-- Helper: flat-mapping the singleton function leaves a line list
unchanged. -/
theorem flatMap_single : ∀ (l : List RenderLine), l.flatMap (fun x => [x]) = l
  | [] => rfl
  | x :: xs => by
    rw [List.flatMap_cons, flatMap_single xs]
    rfl

/-- Wrapping is the identity on the C9 counterexample document. -/
theorem c9_wrapped : wrappedBlocksOf c9CexConfig c9CexDoc =
    List.replicate 499 c9CexSmallBlock ++ [c9CexLastBlock] := by
  simp only [wrappedBlocksOf, c9CexDoc, c9CexConfig, flatMap_single, List.map_append,
    List.map_replicate]
  rfl

/-- The 24-line block has no trailing blank lines, so the provisional
trim draws all of it. -/
theorem c9_small_lines (y : Nat) :
    linesToDrawFor c9CexConfig c9CexSmallBlock y = List.replicate 24 (makePlainLine "x") :=
  rfl

/-- Below the page cap, an advance in the one-column C9 configuration
starts a fresh page. -/
theorem c9_adv (p : Nat) (evs0 : List PdfEvent) (hp : p < MAX_PDF_PAGES) (y0 : Nat) :
    advanceColumnOrPage c9CexConfig "T" true "Heading"
      { page := p, columnIndex := 0, y := y0, contentStartY := 38, events := evs0,
        aborted := none } =
      ({ page := p + 1, columnIndex := 0, y := 38, contentStartY := 38,
         events := evs0 ++ [PdfEvent.pageBreak (p+1) true "Heading"] ++
           [PdfEvent.titleLine (p+1) (makeStyledLine "T" FontStyle.bold)],
         aborted := none }, true) := by
  rw [advanceColumnOrPage]
  dsimp only
  rw [if_neg (by decide), if_neg (Nat.not_le.mpr hp)]
  rfl

/-- Placing one 24-line block below the page cap advances to a fresh
page and fills it. -/
theorem c9_small_step (p y0 : Nat) (evs0 : List PdfEvent) (hp : p < MAX_PDF_PAGES)
    (hy : 0 < y0) :
    placeBlock c9CexConfig "T" c9CexSmallBlock
      { page := p, columnIndex := 0, y := y0, contentStartY := 38, events := evs0,
        aborted := none } =
      { page := p + 1, columnIndex := 0, y := 62, contentStartY := 38,
        events := (evs0 ++ [PdfEvent.pageBreak (p+1) true "Heading"] ++
          [PdfEvent.titleLine (p+1) (makeStyledLine "T" FontStyle.bold)]) ++
          List.map (PdfEvent.placedLine (p+1) 0) (List.replicate 24 (makePlainLine "x")),
        aborted := none } := by
  rw [placeBlock]
  dsimp only
  rw [if_neg (by decide)]
  rw [c9_small_lines]
  rw [if_neg (show ¬(usableHeightOf c9CexConfig <
    (List.replicate 24 (makePlainLine "x")).length * c9CexConfig.lineHeight) from by decide)]
  rw [if_pos (show usableHeightOf c9CexConfig + fitSlackOf c9CexConfig <
    (List.replicate 24 (makePlainLine "x")).length * c9CexConfig.lineHeight + y0 from by
      have h1 : usableHeightOf c9CexConfig = 24 := rfl
      have h2 : fitSlackOf c9CexConfig = 0 := rfl
      have h3 : (List.replicate 24 (makePlainLine "x")).length * c9CexConfig.lineHeight = 24 :=
        rfl
      omega)]
  rw [advanceWithContinuation]
  rw [show lineText c9CexSmallBlock.sectionHeading = "Heading" from rfl,
    show c9CexSmallBlock.hasHeading = true from rfl]
  rw [c9_adv p evs0 hp y0]
  rfl

/-- After k full-page blocks (k at most 499) the run sits on page k+1,
not aborted. -/
theorem c9_fold_small : ∀ (k : Nat), k ≤ 499 →
    ∃ evs, List.foldl (fun st b => placeBlock c9CexConfig "T" b st)
      (initialPdfState c9CexConfig "T") (List.replicate k c9CexSmallBlock) =
      { page := k + 1, columnIndex := 0, y := if k = 0 then 38 else 62, contentStartY := 38,
        events := evs, aborted := none }
  | 0, _ => ⟨_, rfl⟩
  | k + 1, hk => by
    obtain ⟨evs, ih⟩ := c9_fold_small k (by omega)
    rw [List.replicate_succ', List.foldl_append, ih, List.foldl_cons, List.foldl_nil]
    rw [if_neg (Nat.succ_ne_zero k)]
    exact ⟨_, c9_small_step (k + 1) _ evs
      (by have h5 : MAX_PDF_PAGES = 500 := rfl; omega)
      (by by_cases h : k = 0 <;> simp [h])⟩

/-- The closing block, arriving on the full page 500, requests one more
advance and the advance aborts in place. -/
theorem c9_last_step (evs0 : List PdfEvent) :
    placeBlock c9CexConfig "T" c9CexLastBlock
      { page := 500, columnIndex := 0, y := 62, contentStartY := 38, events := evs0,
        aborted := none } =
      { page := 500, columnIndex := 0, y := 62, contentStartY := 38, events := evs0,
        aborted := some pageCapMessage } := rfl

/-- The C9 counterexample run ends aborted with the page-cap message. -/
theorem c9_render_aborted :
    (renderStateOf c9CexConfig c9CexDoc).aborted = some pageCapMessage := by
  rw [renderStateOf, c9_wrapped]
  simp only [show c9CexDoc.title = "T" from rfl]
  rw [List.foldl_append, List.foldl_cons, List.foldl_nil]
  obtain ⟨evs, hk⟩ := c9_fold_small 499 (le_refl _)
  rw [hk]
  rw [show (if (499:Nat) = 0 then (38:Nat) else 62) = 62 from rfl]
  rw [c9_last_step evs]

set_option maxRecDepth 10000 in
/-- Counterexample to C9 as stated: a document whose total wrapped line
count is exactly 12,000 passes the line-cap check yet does NOT render
successfully — its placement needs a 501st page, so the run aborts with
the page-cap message and `downloadPdf` returns an error. -/
theorem c9_counterexample :
    totalWrappedLines c9CexConfig c9CexDoc = MAX_RENDER_LINES ∧
    downloadPdf c9CexConfig c9CexDoc = .error pageCapMessage := by
  have ht : totalWrappedLines c9CexConfig c9CexDoc = MAX_RENDER_LINES := by decide
  refine ⟨ht, ?_⟩
  rw [downloadPdf, if_neg (by omega)]
  simp only []
  rw [c9_render_aborted]

set_option maxRecDepth 10000 in
/-- Witness for C9 at a 12,025-line document: the over-cap branch aborts
with the message quoting the line cap. -/
theorem c9_witness :
    downloadPdf c9CexConfig c9WitDoc =
      .error (lineCapMessage (totalWrappedLines c9CexConfig c9WitDoc)) :=
  c9_render_caps.1 c9CexConfig c9WitDoc (by decide)
